import Mathlib

/-!
# Verification of the bronze/silver/gold restaurant ETL pipeline

A shallow embedding of `pipeline/flows/bronze_flow.py`, `silver_flow.py` and
`gold_flow.py`.  Strings are modelled as lists of character codes
(`List Nat`, ASCII semantics for the case predicates, matching Python's
`re` character classes `[A-Z]`, `[a-z]`, `[0-9]` and the ASCII action of
`str.lower` on the headers the pipeline sees).  Tables are ordered column
lists plus rows of cells; machine floats carrying NaN are modelled as
`Option ℚ` with `none` playing the role of NaN/null.
-/

namespace Pipeline

/-- Character codes of a Lean string, used to state concrete instances. -/
def strToCodes (s : String) : List Nat := s.data.map Char.toNat

/-! ## `_to_snake` (bronze_flow.py lines 19-25)

```python
def _to_snake(s: str) -> str:
    s = s or ""
    s = re.sub(r"[ \-]+", "_", s)
    s = re.sub(r"(.)([A-Z][a-z]+)", r"\1_\2", s)
    s = re.sub(r"([a-z0-9])([A-Z])", r"\1_\2", s)
    s = re.sub(r"__+", "_", s)
    return s.strip("_").lower()
```
Each `re.sub` is a leftmost, non-overlapping substitution, resumed after
the end of every match; `.` does not match a newline (code 10).
-/

/-- Member of the class `[ \-]`: space (32) or hyphen (45). -/
def isSpC (n : Nat) : Bool := n == 32 || n == 45

/-- Member of `[A-Z]` (codes 65-90). -/
def isUpC (n : Nat) : Bool := 65 ≤ n && n ≤ 90

/-- Member of `[a-z]` (codes 97-122). -/
def isLoC (n : Nat) : Bool := 97 ≤ n && n ≤ 122

/-- Member of `[0-9]` (codes 48-57). -/
def isDigC (n : Nat) : Bool := 48 ≤ n && n ≤ 57

/-- `str.lower` on one character code (ASCII action). -/
def loC (n : Nat) : Nat := if isUpC n then n + 32 else n

/-- Code 95 is the underscore. -/
def isUnd (n : Nat) : Bool := n == 95

/-- `re.sub(r"[ \-]+", "_", s)`: every maximal run of spaces/hyphens
becomes a single underscore.  A run of k separators is consumed one
character at a time; the single replacement underscore is emitted at the
run's last character. -/
def sub1 : List Nat → List Nat
  | [] => []
  | c :: cs =>
    if isSpC c then
      match cs with
      | [] => [95]
      | d :: _ => if isSpC d then sub1 cs else 95 :: sub1 cs
    else c :: sub1 cs

/-- Does the list start with a lowercase letter?  (Used for the `[a-z]+`
part of the second pattern, which needs at least one lowercase letter.) -/
def headIsLo : List Nat → Bool
  | d :: _ => isLoC d
  | [] => false

/-- `re.sub(r"(.)([A-Z][a-z]+)", r"\1_\2", s)`: any character except a
newline, followed by an uppercase letter and a maximal nonempty greedy run
of lowercase letters, gets an underscore inserted after the first
character; scanning resumes after the lowercase run.  The flag `inRun`
records that the scanner is still inside the greedy lowercase run of the
previous match (those characters are copied verbatim, and no new match can
start before the run ends). -/
def sub2A : List Nat → Bool → List Nat
  | [], _ => []
  | c :: cs, inRun =>
    if inRun && isLoC c then c :: sub2A cs true
    else
      match cs with
      | [] => [c]
      | u :: cs2 =>
        if c != 10 && isUpC u && headIsLo cs2 then
          c :: 95 :: u :: sub2A cs2 true
        else c :: sub2A (u :: cs2) false

/-- The second substitution, starting outside any match. -/
def sub2 (l : List Nat) : List Nat := sub2A l false

/-- `re.sub(r"([a-z0-9])([A-Z])", r"\1_\2", s)`: a lowercase letter or
digit followed by an uppercase letter gets an underscore inserted between
them; scanning resumes after the uppercase letter. -/
def sub3 : List Nat → List Nat
  | [] => []
  | [c] => [c]
  | a :: b :: cs =>
    if (isLoC a || isDigC a) && isUpC b then a :: 95 :: b :: sub3 cs
    else a :: sub3 (b :: cs)

/-- `re.sub(r"__+", "_", s)`: each maximal run of underscores becomes a
single underscore (a run of length one is left as is, which has the same
effect).  Implemented like `sub1`: the run is consumed one character at a
time and the single underscore is emitted at the run's last character. -/
def collapseU : List Nat → List Nat
  | [] => []
  | c :: cs =>
    if isUnd c then
      match cs with
      | [] => [95]
      | d :: _ => if isUnd d then collapseU cs else 95 :: collapseU cs
    else c :: collapseU cs

/-- `s.strip("_")`: remove leading and trailing underscores. -/
def stripU (l : List Nat) : List Nat :=
  ((l.dropWhile isUnd).reverse.dropWhile isUnd).reverse

/-- `s.lower()` on a code list. -/
def lowerN (l : List Nat) : List Nat := l.map loC

/-- The whole of `_to_snake` on a code list. -/
def toSnakeN (l : List Nat) : List Nat :=
  lowerN (stripU (collapseU (sub3 (sub2 (sub1 l)))))

/-! ## Shape predicates on `_to_snake` outputs -/

/-- No spaces or hyphens anywhere in the list. -/
def noSpAll (l : List Nat) : Prop := ∀ n ∈ l, isSpC n = false

/-- No ASCII uppercase letter anywhere in the list. -/
def noUpAll (l : List Nat) : Prop := ∀ n ∈ l, isUpC n = false

/-- No two adjacent underscores. -/
def noAdjU (l : List Nat) : Prop :=
  List.Chain' (fun a b => ¬(a = 95 ∧ b = 95)) l

/-! ## Tables

A pandas DataFrame is modelled as an ordered list of column names plus a
list of rows; each row is a list of cells aligned positionally with the
column list.  A cell is a string, a number, a parsed UTC timestamp (epoch
seconds), a one-level JSON object with numeric-or-null leaves (the only
nested structure the pipeline touches is the event log's
`{"sentiment": {"score": <number>}}`), or null (NaN/NaT/None). -/

inductive Cell where
  | null : Cell
  | str : List Nat → Cell
  | num : ℚ → Cell
  | tme : ℤ → Cell
  | obj : List (List Nat × Option ℚ) → Cell
  deriving DecidableEq

structure Table where
  cols : List (List Nat)
  rows : List (List Cell)
  deriving DecidableEq

/-- Rows are aligned with the column list. -/
def Wf (t : Table) : Prop := ∀ r ∈ t.rows, r.length = t.cols.length

/-- Value of column `c` in a row laid out by `cols`: the first matching
column position (pandas label lookup); null when the column is absent or
the row is too short. -/
def cellAt : List (List Nat) → List Cell → List Nat → Cell
  | [], _, _ => Cell.null
  | _ :: _, [], _ => Cell.null
  | c1 :: cs, v :: vs, c => if c1 = c then v else cellAt cs vs c

/-- `normalize_df_columns` (bronze_flow.py lines 27-30): rename every
column by `_to_snake`; the data is untouched. -/
def normalizeCols (t : Table) : Table := ⟨t.cols.map toSnakeN, t.rows⟩

/-- Position of the first occurrence of a column label (the length when
absent). -/
def idxOfN (c : List Nat) : List (List Nat) → Nat
  | [] => 0
  | c1 :: cs => if c1 = c then 0 else idxOfN c cs + 1

/-- `df[c] = f(row)`: column assignment computed row-wise from the current
frame; overwrites the column when the label exists, else appends it on the
right. -/
def setColFn (t : Table) (c : List Nat) (f : List Cell → Cell) : Table :=
  if c ∈ t.cols then
    ⟨t.cols, t.rows.map (fun r => r.set (idxOfN c t.cols) (f r))⟩
  else ⟨t.cols ++ [c], t.rows.map (fun r => r ++ [f r])⟩

/-- `df[c] = v` with a scalar value. -/
def setColConst (t : Table) (c : List Nat) (v : Cell) : Table :=
  setColFn t c (fun _ => v)

/-- Union of column lists in order of first appearance: pandas
`concat(..., sort=False)` column alignment. -/
def colsUnion (ts : List Table) : List (List Nat) :=
  ts.foldl (fun acc t => acc ++ t.cols.filter (fun c => decide (c ∉ acc))) []

/-- Reindex one row from its own column layout to the combined layout;
columns the source lacks become null (pandas fills NaN). -/
def reindexRow (old : List (List Nat)) (r : List Cell) (new : List (List Nat)) :
    List Cell :=
  new.map (fun c => cellAt old r c)

/-- `pd.concat(ts, ignore_index=True, sort=False)`. -/
def concatAll (ts : List Table) : Table :=
  let cs := colsUnion ts
  ⟨cs, (ts.map (fun t => t.rows.map (fun r => reindexRow t.cols r cs))).flatten⟩

/-- pandas `DataFrame.empty`: true when any axis has length 0. -/
def isEmptyT (t : Table) : Bool := t.rows.isEmpty || t.cols.isEmpty

def emptyTable : Table := ⟨[], []⟩

/-! ## Column-name and metric-name literals used by the flows -/

def nUsrc : List Nat := strToCodes "_src"
def nSrc : List Nat := strToCodes "src"
def nSentiment : List Nat := strToCodes "sentiment"
def nSentimentScore : List Nat := strToCodes "sentiment_score"
def nScore : List Nat := strToCodes "score"
def nFirstResponseAt : List Nat := strToCodes "first_response_at"
def nResolvedAt : List Nat := strToCodes "resolved_at"
def nResponseTimeHours : List Nat := strToCodes "response_time_hours"
def nTicketId : List Nat := strToCodes "ticket_id"
def nAgentId : List Nat := strToCodes "agent_id"
def nStatus : List Nat := strToCodes "status"
def sPositive : List Nat := strToCodes "positive"
def sNegative : List Nat := strToCodes "negative"
def sNeutral : List Nat := strToCodes "neutral"
def mTpa : List Nat := strToCodes "tickets_per_agent"
def mTbs : List Nat := strToCodes "tickets_by_status"
def mTbsent : List Nat := strToCodes "tickets_by_sentiment"
def mAvg : List Nat := strToCodes "avg_response_time_per_agent"

/-- The fixed candidate list `csv_names` (bronze_flow.py line 40), as the
logical source names produced by `fname.replace(".csv", "")`. -/
def csvNames : List (List Nat) :=
  [strToCodes "customers", strToCodes "orders", strToCodes "stores",
   strToCodes "products", strToCodes "items", strToCodes "supplies"]

/-! ## Bronze flow (bronze_flow.py lines 32-99) -/

/-- Python `x.get("score") if isinstance(x, dict) else None` on one cell
of the `sentiment` column. -/
def extractScore : Cell → Cell
  | Cell.obj fields =>
      match fields.lookup nScore with
      | some (some q) => Cell.num q
      | some none => Cell.null
      | none => Cell.null
  | _ => Cell.null

/-- The JSONL branch (bronze_flow.py lines 62-81): a missing or unreadable
file contributes an empty frame; otherwise columns are normalized and, if
a `sentiment` column exists, `sentiment_score` is derived from the nested
object. -/
def logTable (log : Option Table) : Table :=
  match log with
  | none => emptyTable
  | some t =>
      let tn := normalizeCols t
      if nSentiment ∈ tn.cols then
        setColFn tn nSentimentScore (fun r => extractScore (cellAt tn.cols r nSentiment))
      else tn

/-- The successfully read CSV frames in candidate order, each with
normalized columns and the scalar `_src` provenance column
(bronze_flow.py lines 42-54): `raw` holds, for each candidate name,
`none` when the file is absent or its read raised (both are logged and
skipped) and `some t` when it was read. -/
def csvDfs (raw : List (List Nat × Option Table)) : List Table :=
  raw.filterMap
    (fun p => p.2.map (fun t => setColConst (normalizeCols t) nUsrc (Cell.str p.1)))

/-- The successfully read sources, in candidate order, as (name, table)
pairs — used to state which bronze row came from which source. -/
def succs (raw : List (List Nat × Option Table)) : List (List Nat × Table) :=
  raw.filterMap (fun p => p.2.map (fun t => (p.1, t)))

/-- Index of the first bronze row contributed by source `k`. -/
def blockStart (raw : List (List Nat × Option Table)) (k : Nat) : Nat :=
  (((succs raw).take k).map (fun p => p.2.rows.length)).sum

/-- Total number of bronze rows contributed by the tabular sources. -/
def csvRowTotal (raw : List (List Nat × Option Table)) : Nat :=
  ((succs raw).map (fun p => p.2.rows.length)).sum

/-- Default pair for indexing into `succs`. -/
def dPair : List Nat × Table := ([], emptyTable)

/-- Cleanliness of the inputs assumed by the C1 provenance theorem: every
successfully read source is well-formed and none of its normalized column
names collides with the provenance names "src" and "_src". -/
def CleanSources (raw : List (List Nat × Option Table)) : Prop :=
  ∀ p ∈ succs raw,
    (∀ r ∈ p.2.rows, r.length = p.2.cols.length) ∧
    ∀ c ∈ p.2.cols, toSnakeN c ≠ nSrc ∧ toSnakeN c ≠ nUsrc

/-- Cleanliness of the processed event-log frame: its column names are
already fixed points of the normalization and avoid the provenance
names. -/
def CleanLog (log : Option Table) : Prop :=
  ∀ c ∈ (logTable log).cols, toSnakeN c = c ∧ c ≠ nSrc ∧ c ≠ nUsrc

/-- The bronze flow on already-read inputs (file IO and the Prefect
wrapper are outside the model): concat the CSV frames, concat with the
JSONL frame when both are nonempty (pandas `.empty` semantics), then
re-normalize all column names, and write the result. -/
def bronzeFlow (raw : List (List Nat × Option Table)) (log : Option Table) : Table :=
  let dfs := csvDfs raw
  let dfCsv := if dfs.isEmpty then emptyTable else concatAll dfs
  let dfJson := logTable log
  let combined :=
    if isEmptyT dfCsv = false ∧ isEmptyT dfJson = false then concatAll [dfCsv, dfJson]
    else if isEmptyT dfCsv = false then dfCsv
    else dfJson
  normalizeCols combined

/-! ## Silver flow (silver_flow.py) -/

/-- The candidate timestamp columns (silver_flow.py line 31). -/
def tsColNames : List (List Nat) :=
  [strToCodes "first_response_at", strToCodes "resolved_at",
   strToCodes "updated_at", strToCodes "created_at",
   strToCodes "order_timestamp", strToCodes "last_delivery_at",
   strToCodes "sla_due_at"]

/-- `pd.to_datetime(x, errors="coerce", utc=True)` on one cell, with the
timestamp-string grammar abstracted into `parse` (a fixed map from strings
to UTC epoch seconds).  Unparseable strings and nulls coerce to NaT
(null); bronze CSV cells read with dtype=str are only strings or nulls. -/
def parseCell (parse : List Nat → Option ℤ) : Cell → Cell
  | Cell.str s =>
      match parse s with
      | some z => Cell.tme z
      | none => Cell.null
  | _ => Cell.null

/-- Re-type one column in place (identity when the column is absent,
matching the `if col in df.columns` guard). -/
def mapCol (t : Table) (c : List Nat) (f : Cell → Cell) : Table :=
  if c ∈ t.cols then
    ⟨t.cols,
     t.rows.map (fun r => r.set (idxOfN c t.cols) (f (r.getD (idxOfN c t.cols) Cell.null)))⟩
  else t

/-- The timestamp-parsing loop (silver_flow.py lines 31-36). -/
def parseTimestamps (parse : List Nat → Option ℤ) (t : Table) : Table :=
  tsColNames.foldl (fun acc c => mapCol acc c (parseCell parse)) t

/-- `(resolved_at - first_response_at).dt.total_seconds() / 3600.0` on one
row; null when either timestamp is null (NaT arithmetic gives NaN). -/
def respVal (cols : List (List Nat)) (r : List Cell) : Cell :=
  match cellAt cols r nResolvedAt, cellAt cols r nFirstResponseAt with
  | Cell.tme a, Cell.tme b => Cell.num (((a - b : ℤ) : ℚ) / 3600)
  | _, _ => Cell.null

/-- silver_flow.py lines 38-42. -/
def addResponse (t : Table) : Table :=
  if nResolvedAt ∈ t.cols ∧ nFirstResponseAt ∈ t.cols then
    setColFn t nResponseTimeHours (respVal t.cols)
  else
    setColFn t nResponseTimeHours (fun _ => Cell.null)

/-- Python `str.strip` whitespace: space, HT, LF, VT, FF, CR. -/
def isWs (n : Nat) : Bool :=
  n == 32 || n == 9 || n == 10 || n == 11 || n == 12 || n == 13

def stripWs (l : List Nat) : List Nat :=
  ((l.dropWhile isWs).reverse.dropWhile isWs).reverse

/-- The row filter `df["ticket_id"].notna() & (astype(str).strip() != "")`
on one cell: nulls fail `notna`; strings are kept iff not
whitespace-only; any other value has a nonempty, non-whitespace `str()`
repr and is kept (ticket_id cells of a bronze CSV are only strings or
nulls anyway). -/
def keepTicket : Cell → Bool
  | Cell.null => false
  | Cell.str s => !(stripWs s).isEmpty
  | _ => true

/-- silver_flow.py lines 44-51: filter only when the column exists. -/
def filterTickets (t : Table) : Table :=
  if nTicketId ∈ t.cols then
    ⟨t.cols, t.rows.filter (fun r => keepTicket (cellAt t.cols r nTicketId))⟩
  else t

/-- The silver transformation (silver_flow.py lines 27-54) on the bronze
table as re-read from CSV. -/
def silverTransform (parse : List Nat → Option ℤ) (t : Table) : Table :=
  filterTickets (addResponse (parseTimestamps parse t))

/-- pandas raises EmptyDataError when asked to parse a CSV with no
columns; `DataFrame().to_csv(index=False)` writes exactly such a file
(a single newline). -/
inductive ReadErr where
  | emptyData : ReadErr
  deriving DecidableEq

def readCsvT (t : Table) : Except ReadErr Table :=
  if t.cols.isEmpty then Except.error ReadErr.emptyData else Except.ok t

/-- Result of running a downstream stage: upstream file missing (logged
early return, no output), unhandled exception, or output written. -/
inductive StageOut where
  | missingInput : StageOut
  | raised (e : ReadErr) : StageOut
  | wrote (t : Table) : StageOut
  deriving DecidableEq

/-- The silver flow (silver_flow.py lines 17-57): early return when
bronze.csv does not exist; otherwise `pd.read_csv` — which raises on a
column-less file — then the pure transformation, written to silver.csv. -/
def silverFlow (parse : List Nat → Option ℤ) (bronzeFile : Option Table) : StageOut :=
  match bronzeFile with
  | none => StageOut.missingInput
  | some b =>
      match readCsvT b with
      | Except.error e => StageOut.raised e
      | Except.ok df => StageOut.wrote (silverTransform parse df)

/-! ## Gold flow (gold_flow.py) -/

/-- `pd.to_numeric(x, errors="coerce")`, with the numeric-string grammar
abstracted into `parseNum`; other non-numeric values coerce to NaN. -/
def toNumC (parseNum : List Nat → Option ℚ) : Cell → Option ℚ
  | Cell.num q => some q
  | Cell.str s => parseNum s
  | _ => none

/-- The column `c` of `t` as a cell series. -/
def colList (t : Table) (c : List Nat) : List Cell :=
  t.rows.map (fun r => cellAt t.cols r c)

/-- gold_flow.py lines 53-63: the numeric sentiment score per row, from
`sentiment_score` when present, else from a still-nested `sentiment`
object, else missing for every row. -/
def scoreList (parseNum : List Nat → Option ℚ) (t : Table) : List (Option ℚ) :=
  if nSentimentScore ∈ t.cols then
    (colList t nSentimentScore).map (toNumC parseNum)
  else if nSentiment ∈ t.cols then
    (colList t nSentiment).map
      (fun x =>
        match x with
        | Cell.obj fields =>
            match fields.lookup nScore with
            | some (some q) => some q
            | _ => none
        | _ => none)
  else t.rows.map (fun _ => none)

/-- `sentiment_label` (gold_flow.py lines 65-74).  The score was already
coerced numeric, so the argument is a float or NaN (`none`); `float(nan)`
succeeds and both NaN comparisons are false, giving "neutral". -/
def sentimentLabel (v : Option ℚ) : List Nat :=
  match v with
  | none => sNeutral
  | some q =>
      if q ≥ 1/2 then sPositive
      else if q ≤ -(1/2) then sNegative
      else sNeutral

/-- `groupby(c, dropna=True).size()`: counts per distinct non-null key.
pandas returns the groups sorted by key; the key order is irrelevant to
every property proved here and the model uses first-appearance order. -/
def groupCount (vs : List Cell) : List (Cell × Nat) :=
  let ks := vs.filter (fun v => decide (v ≠ Cell.null))
  ks.dedup.map (fun v => (v, ks.count v))

/-- `groupby("sentiment_label", dropna=False).size()` over the label
series (labels are never null). -/
def groupCountL (vs : List (List Nat)) : List (List Nat × Nat) :=
  vs.dedup.map (fun v => (v, vs.count v))

/-- pandas `mean()`: skips NaN, returns NaN (`none`) for an all-NaN
group. -/
def meanOpt (l : List ℚ) : Option ℚ :=
  if l.isEmpty then none else some (l.sum / l.length)

/-- `groupby("agent_id", dropna=True)["response_time_hours"].mean()`. -/
def groupMean (pairs : List (Cell × Option ℚ)) : List (Cell × Option ℚ) :=
  let ks := (pairs.map Prod.fst).filter (fun v => decide (v ≠ Cell.null))
  ks.dedup.map
    (fun k => (k, meanOpt ((pairs.filter (fun p => decide (p.1 = k))).filterMap Prod.snd)))

/-- Python `round(x, 4)` rounds half to even (the model idealizes binary
floats to exact rationals). -/
def roundHalfEven (q : ℚ) : ℤ :=
  let f := ⌊q⌋
  if q - f < 1/2 then f
  else if (1 : ℚ)/2 < q - f then f + 1
  else if 2 ∣ f then f else f + 1

def round4 (q : ℚ) : ℚ := (roundHalfEven (q * 10000) : ℚ) / 10000

/-- Python `x or 0.0` on a float: 0.0 is the only falsy float, so a 0.0
mean maps to 0.0 (itself) and every other value — including NaN, which is
truthy in Python — passes through unchanged. -/
def pyOrZero : Option ℚ → Option ℚ
  | none => none
  | some q => some (if q = 0 then 0 else q)

/-- A summary-table value: `int(...)` for the count metrics, a float
(possibly NaN, as `none`) for the mean metric. -/
inductive SVal where
  | iv : ℤ → SVal
  | fv : Option ℚ → SVal
  deriving DecidableEq

/-- The four gold aggregate tables plus the long-format summary rows
(metric, key, value). -/
structure GoldOut where
  tpa : List (Cell × Nat)
  tbs : List (Cell × Nat)
  tbsent : List (List Nat × Nat)
  avgResp : List (Cell × Option ℚ)
  summary : List (List Nat × Cell × SVal)
  deriving DecidableEq

/-- The gold computation (gold_flow.py lines 34-105) on the silver table
as re-read from CSV.  An absent grouping column yields an empty aggregate
with defined columns; the summary concatenates the four aggregates in
fixed order, `float(round(x or 0.0, 4))` applied to each mean. -/
def goldTransform (parseNum : List Nat → Option ℚ) (df : Table) : GoldOut :=
  let tpa := if nAgentId ∈ df.cols then groupCount (colList df nAgentId) else []
  let tbs := if nStatus ∈ df.cols then groupCount (colList df nStatus) else []
  let labels := (scoreList parseNum df).map sentimentLabel
  let tbsent := groupCountL labels
  let avgResp :=
    if nAgentId ∈ df.cols ∧ nResponseTimeHours ∈ df.cols then
      groupMean ((colList df nAgentId).zip
        ((colList df nResponseTimeHours).map (toNumC parseNum)))
    else []
  let summary :=
    tpa.map (fun p => (mTpa, p.1, SVal.iv (p.2 : ℤ))) ++
    tbs.map (fun p => (mTbs, p.1, SVal.iv (p.2 : ℤ))) ++
    tbsent.map (fun p => (mTbsent, Cell.str p.1, SVal.iv (p.2 : ℤ))) ++
    avgResp.map (fun p => (mAvg, p.1, SVal.fv ((pyOrZero p.2).map round4)))
  ⟨tpa, tbs, tbsent, avgResp, summary⟩

/-- The gold flow (gold_flow.py lines 24-137): early return with no
output when silver.csv does not exist.  (A silver-written CSV always has
at least the `response_time_hours` column, so its read cannot raise
EmptyDataError.) -/
def goldFlow (parseNum : List Nat → Option ℚ) (silverFile : Option Table) :
    Option GoldOut :=
  match silverFile with
  | none => none
  | some df => some (goldTransform parseNum df)

/-! ## Concrete parsers for witnesses -/

/-- Decimal value of a digit string (used only to instantiate the
abstract parsers in witnesses). -/
def digitsVal : List Nat → Nat → Nat
  | [], acc => acc
  | d :: ds, acc => digitsVal ds (acc * 10 + (d - 48))

/-- A concrete timestamp grammar for witnesses: a nonempty string of
decimal digits denoting UTC epoch seconds. -/
def parseEpoch (l : List Nat) : Option ℤ :=
  if l.isEmpty then none
  else if l.all isDigC then some ((digitsVal l 0 : Nat) : ℤ)
  else none

/-- A concrete numeric grammar for witnesses. -/
def parseNumQ (l : List Nat) : Option ℚ :=
  (parseEpoch l).map (fun z => (z : ℚ))

/-! ## Concrete inputs used by witnesses and counterexamples -/

/-- A bronze table without a `ticket_id` column (for C8). -/
def wNoTicket : Table :=
  ⟨[strToCodes "name"], [[Cell.str (strToCodes "x")], [Cell.null]]⟩

/-- A bronze table with both timestamp columns; the first row has a
7200-second gap, the second a null first-response (for C5). -/
def wResp : Table :=
  ⟨[nFirstResponseAt, nResolvedAt],
   [[Cell.str (strToCodes "1000"), Cell.str (strToCodes "8200")],
    [Cell.null, Cell.str (strToCodes "5")]]⟩

/-- A silver table with one agent whose only response time is null
(for C2): its mean is NaN. -/
def wNanMean : Table :=
  ⟨[nAgentId, nResponseTimeHours], [[Cell.str (strToCodes "a1"), Cell.null]]⟩

/-- The bronze input in which only `customers.csv` is present (one row,
one column), all other candidates and the event log absent (for C1). -/
def wCustomers : Table :=
  ⟨[strToCodes "name"], [[Cell.str (strToCodes "alice")]]⟩

def wRawC1 : List (List Nat × Option Table) :=
  [(strToCodes "customers", some wCustomers),
   (strToCodes "orders", none), (strToCodes "stores", none),
   (strToCodes "products", none), (strToCodes "items", none),
   (strToCodes "supplies", none)]

/-- A two-source run with an event log, for the C1 witness: customers has
two rows, orders one row with a different column, the log one row. -/
def wCustomers2 : Table :=
  ⟨[strToCodes "Customer ID"],
   [[Cell.str (strToCodes "c1")], [Cell.str (strToCodes "c2")]]⟩

def wOrders2 : Table :=
  ⟨[strToCodes "order_id"], [[Cell.str (strToCodes "o1")]]⟩

def wLog2 : Table :=
  ⟨[strToCodes "ticket_id", strToCodes "sentiment"],
   [[Cell.str (strToCodes "t1"), Cell.obj [(strToCodes "score", some (1/2))]]]⟩

def wRawW1 : List (List Nat × Option Table) :=
  [(strToCodes "customers", some wCustomers2),
   (strToCodes "orders", some wOrders2), (strToCodes "stores", none),
   (strToCodes "products", none), (strToCodes "items", none),
   (strToCodes "supplies", none)]

/-- The empty-input scenario of C3: every candidate CSV and the event log
absent. -/
def wRawEmpty : List (List Nat × Option Table) := csvNames.map (fun n => (n, none))

/-! ## Unfolding equations for the substitution scanners -/

theorem sub1_nil : sub1 [] = [] := rfl

theorem sub1_single_sp {c : Nat} (hc : isSpC c = true) : sub1 [c] = [95] := by
  simp [sub1, hc]

theorem sub1_sp_sp {c d : Nat} {cs : List Nat} (hc : isSpC c = true)
    (hd : isSpC d = true) : sub1 (c :: d :: cs) = sub1 (d :: cs) := by
  simp [sub1, hc, hd]

theorem sub1_sp_nsp {c d : Nat} {cs : List Nat} (hc : isSpC c = true)
    (hd : isSpC d = false) : sub1 (c :: d :: cs) = 95 :: sub1 (d :: cs) := by
  simp [sub1, hc, hd]

theorem sub1_nsp {c : Nat} {cs : List Nat} (hc : isSpC c = false) :
    sub1 (c :: cs) = c :: sub1 cs := by
  cases cs <;> simp [sub1, hc]

theorem sub2A_nil {b : Bool} : sub2A [] b = [] := rfl

theorem sub2A_run {c : Nat} {cs : List Nat} {b : Bool}
    (h : (b && isLoC c) = true) : sub2A (c :: cs) b = c :: sub2A cs true := by
  cases cs <;> simp [sub2A, h]

theorem sub2A_single {c : Nat} {b : Bool} (h : (b && isLoC c) = false) :
    sub2A [c] b = [c] := by
  simp [sub2A, h]

theorem sub2A_hit {c u : Nat} {cs2 : List Nat} {b : Bool}
    (h : (b && isLoC c) = false) (hm : (c != 10 && isUpC u && headIsLo cs2) = true) :
    sub2A (c :: u :: cs2) b = c :: 95 :: u :: sub2A cs2 true := by
  simp [sub2A, h, hm]

theorem sub2A_miss {c u : Nat} {cs2 : List Nat} {b : Bool}
    (h : (b && isLoC c) = false) (hm : (c != 10 && isUpC u && headIsLo cs2) = false) :
    sub2A (c :: u :: cs2) b = c :: sub2A (u :: cs2) false := by
  simp [sub2A, h, hm]

theorem sub3_nil : sub3 [] = [] := rfl

theorem sub3_single {c : Nat} : sub3 [c] = [c] := rfl

theorem sub3_hit {a b : Nat} {cs : List Nat}
    (h : ((isLoC a || isDigC a) && isUpC b) = true) :
    sub3 (a :: b :: cs) = a :: 95 :: b :: sub3 cs := by
  simp [sub3, h]

theorem sub3_miss {a b : Nat} {cs : List Nat}
    (h : ((isLoC a || isDigC a) && isUpC b) = false) :
    sub3 (a :: b :: cs) = a :: sub3 (b :: cs) := by
  simp [sub3, h]

theorem collapseU_nil : collapseU [] = [] := rfl

theorem collapseU_single_u {c : Nat} (hc : isUnd c = true) :
    collapseU [c] = [95] := by
  simp [collapseU, hc]

theorem collapseU_u_u {c d : Nat} {cs : List Nat} (hc : isUnd c = true)
    (hd : isUnd d = true) : collapseU (c :: d :: cs) = collapseU (d :: cs) := by
  simp [collapseU, hc, hd]

theorem collapseU_u_nu {c d : Nat} {cs : List Nat} (hc : isUnd c = true)
    (hd : isUnd d = false) : collapseU (c :: d :: cs) = 95 :: collapseU (d :: cs) := by
  simp [collapseU, hc, hd]

theorem collapseU_nu {c : Nat} {cs : List Nat} (hc : isUnd c = false) :
    collapseU (c :: cs) = c :: collapseU cs := by
  cases cs <;> simp [collapseU, hc]

/-! ## Every character of a substitution's output is a character of its
input or an underscore -/

theorem mem_sub1 {n : Nat} : ∀ {l : List Nat}, n ∈ sub1 l → n ∈ l ∨ n = 95 := by
  intro l
  induction l using sub1.induct with
  | case1 => intro h; rw [sub1_nil] at h; exact absurd h (by simp)
  | case2 c hc => intro h; rw [sub1_single_sp hc] at h; simp at h; exact Or.inr h
  | case3 c hc d tail hd ih =>
      intro h
      rw [sub1_sp_sp hc hd] at h
      exact (ih h).imp (List.mem_cons_of_mem _) id
  | case4 c hc d tail hd ih =>
      intro h
      rw [sub1_sp_nsp hc (by simpa using hd)] at h
      rcases List.mem_cons.mp h with h1 | h1
      · exact Or.inr h1
      · exact (ih h1).imp (List.mem_cons_of_mem _) id
  | case5 c tail hc ih =>
      intro h
      rw [sub1_nsp (by simpa using hc)] at h
      rcases List.mem_cons.mp h with h1 | h1
      · exact Or.inl (by simp [h1])
      · exact (ih h1).imp (List.mem_cons_of_mem _) id

theorem mem_sub2A {n : Nat} :
    ∀ {l : List Nat} {b : Bool}, n ∈ sub2A l b → n ∈ l ∨ n = 95 := by
  intro l b
  induction l, b using sub2A.induct with
  | case1 b => intro h; rw [sub2A_nil] at h; exact absurd h (by simp)
  | case2 c cs b hb ih =>
      intro h
      rw [sub2A_run hb] at h
      rcases List.mem_cons.mp h with h1 | h1
      · exact Or.inl (by simp [h1])
      · exact (ih h1).imp (List.mem_cons_of_mem _) id
  | case3 c b hb =>
      intro h
      rw [sub2A_single (by simpa using hb)] at h
      simp at h; exact Or.inl (by simp [h])
  | case4 c b hb u cs2 hm ih =>
      intro h
      rw [sub2A_hit (by simpa using hb) hm] at h
      rcases List.mem_cons.mp h with h1 | h1
      · exact Or.inl (by simp [h1])
      rcases List.mem_cons.mp h1 with h2 | h2
      · exact Or.inr h2
      rcases List.mem_cons.mp h2 with h3 | h3
      · exact Or.inl (by simp [h3])
      · rcases ih h3 with h4 | h4
        · exact Or.inl (by simp [h4])
        · exact Or.inr h4
  | case5 c b hb u cs2 hm ih =>
      intro h
      rw [sub2A_miss (by simpa using hb) (by simpa using hm)] at h
      rcases List.mem_cons.mp h with h1 | h1
      · exact Or.inl (by simp [h1])
      · exact (ih h1).imp (List.mem_cons_of_mem _) id

theorem mem_sub3 {n : Nat} : ∀ {l : List Nat}, n ∈ sub3 l → n ∈ l ∨ n = 95 := by
  intro l
  induction l using sub3.induct with
  | case1 => intro h; rw [sub3_nil] at h; exact absurd h (by simp)
  | case2 c => intro h; rw [sub3_single] at h; simp at h; exact Or.inl (by simp [h])
  | case3 a b cs hm ih =>
      intro h
      rw [sub3_hit hm] at h
      rcases List.mem_cons.mp h with h1 | h1
      · exact Or.inl (by simp [h1])
      rcases List.mem_cons.mp h1 with h2 | h2
      · exact Or.inr h2
      rcases List.mem_cons.mp h2 with h3 | h3
      · exact Or.inl (by simp [h3])
      · rcases ih h3 with h4 | h4
        · exact Or.inl (by simp [h4])
        · exact Or.inr h4
  | case4 a b cs hm ih =>
      intro h
      rw [sub3_miss (by simpa using hm)] at h
      rcases List.mem_cons.mp h with h1 | h1
      · exact Or.inl (by simp [h1])
      · exact (ih h1).imp (List.mem_cons_of_mem _) id

theorem mem_collapseU {n : Nat} :
    ∀ {l : List Nat}, n ∈ collapseU l → n ∈ l ∨ n = 95 := by
  intro l
  induction l using collapseU.induct with
  | case1 => intro h; rw [collapseU_nil] at h; exact absurd h (by simp)
  | case2 c hc => intro h; rw [collapseU_single_u hc] at h; simp at h; exact Or.inr h
  | case3 c hc d tail hd ih =>
      intro h
      rw [collapseU_u_u hc hd] at h
      exact (ih h).imp (List.mem_cons_of_mem _) id
  | case4 c hc d tail hd ih =>
      intro h
      rw [collapseU_u_nu hc (by simpa using hd)] at h
      rcases List.mem_cons.mp h with h1 | h1
      · exact Or.inr h1
      · exact (ih h1).imp (List.mem_cons_of_mem _) id
  | case5 c tail hc ih =>
      intro h
      rw [collapseU_nu (by simpa using hc)] at h
      rcases List.mem_cons.mp h with h1 | h1
      · exact Or.inl (by simp [h1])
      · exact (ih h1).imp (List.mem_cons_of_mem _) id

theorem mem_stripU {n : Nat} {l : List Nat} (h : n ∈ stripU l) : n ∈ l := by
  unfold stripU at h
  rw [List.mem_reverse] at h
  have h2 := (List.dropWhile_suffix isUnd).mem h
  rw [List.mem_reverse] at h2
  exact (List.dropWhile_suffix isUnd).mem h2

/-! ## Identity lemmas: each substitution fixes an already-clean string -/

theorem sub1_id : ∀ l : List Nat, noSpAll l → sub1 l = l := by
  intro l
  induction l using sub1.induct with
  | case1 => intro _; rfl
  | case2 c hc => intro h; exact absurd (h c (by simp)) (by simp [hc])
  | case3 c hc d tail hd ih => intro h; exact absurd (h c (by simp)) (by simp [hc])
  | case4 c hc d tail hd ih => intro h; exact absurd (h c (by simp)) (by simp [hc])
  | case5 c tail hc ih =>
      intro h
      rw [sub1_nsp (by simpa using hc), ih (fun n hn => h n (by simp [hn]))]

theorem sub2A_id : ∀ (l : List Nat) (b : Bool), noUpAll l → sub2A l b = l := by
  intro l b
  induction l, b using sub2A.induct with
  | case1 b => intro _; rfl
  | case2 c cs b hb ih =>
      intro h
      rw [sub2A_run hb, ih (fun n hn => h n (by simp [hn]))]
  | case3 c b hb => intro _; exact sub2A_single (by simpa using hb)
  | case4 c b hb u cs2 hm ih =>
      intro h
      have : isUpC u = true := by
        simp only [Bool.and_eq_true] at hm
        exact hm.1.2
      exact absurd (h u (by simp)) (by simp [this])
  | case5 c b hb u cs2 hm ih =>
      intro h
      rw [sub2A_miss (by simpa using hb) (by simpa using hm),
        ih (fun n hn => h n (List.mem_cons_of_mem _ hn))]

theorem sub3_id : ∀ l : List Nat, noUpAll l → sub3 l = l := by
  intro l
  induction l using sub3.induct with
  | case1 => intro _; rfl
  | case2 c => intro _; rfl
  | case3 a b cs hm ih =>
      intro h
      have : isUpC b = true := by
        simp only [Bool.and_eq_true] at hm
        exact hm.2
      exact absurd (h b (by simp)) (by simp [this])
  | case4 a b cs hm ih =>
      intro h
      rw [sub3_miss (by simpa using hm), ih (fun n hn => h n (by simp [hn]))]

theorem collapseU_id : ∀ l : List Nat, noAdjU l → collapseU l = l := by
  intro l
  induction l using collapseU.induct with
  | case1 => intro _; rfl
  | case2 c hc =>
      intro _
      rw [collapseU_single_u hc]
      simp [isUnd] at hc
      rw [hc]
  | case3 c hc d tail hd ih =>
      intro h
      simp [isUnd] at hc hd
      exact absurd (List.chain'_cons.mp h).1 (by simp [hc, hd])
  | case4 c hc d tail hd ih =>
      intro h
      simp [isUnd] at hc
      rw [collapseU_u_nu (by simp [isUnd, hc]) (by simpa using hd),
        ih (List.chain'_cons.mp h).2, hc]
  | case5 c tail hc ih =>
      intro h
      rw [collapseU_nu (by simpa using hc), ih (List.Chain'.tail h)]

/-! ## Output-shape lemmas -/

theorem sub1_noSp : ∀ l : List Nat, noSpAll (sub1 l) := by
  intro l
  induction l using sub1.induct with
  | case1 => intro n hn; rw [sub1_nil] at hn; exact absurd hn (by simp)
  | case2 c hc =>
      intro n hn; rw [sub1_single_sp hc] at hn
      simp at hn; subst hn; rfl
  | case3 c hc d tail hd ih => intro n hn; rw [sub1_sp_sp hc hd] at hn; exact ih n hn
  | case4 c hc d tail hd ih =>
      intro n hn; rw [sub1_sp_nsp hc (by simpa using hd)] at hn
      rcases List.mem_cons.mp hn with h1 | h1
      · subst h1; rfl
      · exact ih n h1
  | case5 c tail hc ih =>
      intro n hn; rw [sub1_nsp (by simpa using hc)] at hn
      rcases List.mem_cons.mp hn with h1 | h1
      · subst h1; simpa using hc
      · exact ih n h1

theorem isSpC_95 : isSpC 95 = false := rfl

theorem sub2_noSp {l : List Nat} {b : Bool} (h : noSpAll l) : noSpAll (sub2A l b) :=
  fun n hn => (mem_sub2A hn).elim (h n) (fun e => e ▸ isSpC_95)

theorem sub3_noSp {l : List Nat} (h : noSpAll l) : noSpAll (sub3 l) :=
  fun n hn => (mem_sub3 hn).elim (h n) (fun e => e ▸ isSpC_95)

theorem collapseU_noSp {l : List Nat} (h : noSpAll l) : noSpAll (collapseU l) :=
  fun n hn => (mem_collapseU hn).elim (h n) (fun e => e ▸ isSpC_95)

theorem stripU_noSp {l : List Nat} (h : noSpAll l) : noSpAll (stripU l) :=
  fun n hn => h n (mem_stripU hn)

/-! ## Pointwise facts about `str.lower` -/

theorem loC_isUp (n : Nat) : isUpC (loC n) = false := by
  unfold loC
  by_cases h : isUpC n = true
  · rw [if_pos h]
    simp only [isUpC, Bool.and_eq_true, decide_eq_true_eq] at h
    rw [Bool.eq_false_iff]
    intro hcon
    simp only [isUpC, Bool.and_eq_true, decide_eq_true_eq] at hcon
    omega
  · rw [if_neg h]
    exact Bool.not_eq_true _ |>.mp h

theorem loC_eq95 {n : Nat} : loC n = 95 ↔ n = 95 := by
  unfold loC
  by_cases h : isUpC n = true
  · rw [if_pos h]
    simp only [isUpC, Bool.and_eq_true, decide_eq_true_eq] at h
    omega
  · rw [if_neg h]

theorem loC_isSp (n : Nat) : isSpC (loC n) = isSpC n := by
  unfold loC
  by_cases h : isUpC n = true
  · rw [if_pos h]
    simp only [isUpC, Bool.and_eq_true, decide_eq_true_eq] at h
    have h1 : isSpC (n + 32) = false := by
      rw [Bool.eq_false_iff]
      intro hcon
      simp only [isSpC, Bool.or_eq_true, beq_iff_eq] at hcon
      omega
    have h2 : isSpC n = false := by
      rw [Bool.eq_false_iff]
      intro hcon
      simp only [isSpC, Bool.or_eq_true, beq_iff_eq] at hcon
      omega
    rw [h1, h2]
  · rw [if_neg h]

theorem loC_id {n : Nat} (h : isUpC n = false) : loC n = n := by
  simp [loC, h]

theorem lowerN_noUp (l : List Nat) : noUpAll (lowerN l) := by
  intro m hm
  obtain ⟨n, _, rfl⟩ := List.mem_map.mp hm
  exact loC_isUp n

theorem lowerN_id {l : List Nat} (h : noUpAll l) : lowerN l = l :=
  (List.map_congr_left (fun n hn => loC_id (h n hn))).trans (List.map_id l)

theorem lowerN_noSp {l : List Nat} (h : noSpAll l) : noSpAll (lowerN l) := by
  intro m hm
  obtain ⟨n, hn, rfl⟩ := List.mem_map.mp hm
  rw [loC_isSp]
  exact h n hn

theorem lowerN_noAdjU {l : List Nat} (h : noAdjU l) : noAdjU (lowerN l) := by
  unfold noAdjU lowerN
  rw [List.chain'_map]
  refine h.imp (fun a b hab => ?_)
  rw [loC_eq95, loC_eq95]
  exact hab

/-! ## Facts about `strip("_")` -/

theorem head_dropWhile_false (p : Nat → Bool) :
    ∀ (l : List Nat) {n : Nat}, (l.dropWhile p).head? = some n → p n = false := by
  intro l
  induction l with
  | nil => intro n h; simp [List.dropWhile] at h
  | cons c cs ih =>
      intro n h
      rw [List.dropWhile_cons] at h
      by_cases hc : p c = true
      · rw [if_pos hc] at h; exact ih h
      · rw [if_neg hc] at h
        simp only [List.head?_cons, Option.some.injEq] at h
        subst h
        exact Bool.not_eq_true _ |>.mp hc

theorem stripU_prefix (l : List Nat) : stripU l <+: l.dropWhile isUnd := by
  unfold stripU
  conv_rhs => rw [← List.reverse_reverse (l.dropWhile isUnd)]
  exact List.reverse_prefix.mpr (List.dropWhile_suffix _)

theorem stripU_head {l : List Nat} {n : Nat} (h : (stripU l).head? = some n) :
    n ≠ 95 := by
  obtain ⟨r, hr⟩ := stripU_prefix l
  have h2 : (l.dropWhile isUnd).head? = some n := by
    rw [← hr, List.head?_append, h]; rfl
  have := head_dropWhile_false isUnd _ h2
  simpa [isUnd] using this

theorem stripU_getLast {l : List Nat} {n : Nat} (h : (stripU l).getLast? = some n) :
    n ≠ 95 := by
  unfold stripU at h
  rw [List.getLast?_reverse] at h
  have := head_dropWhile_false isUnd _ h
  simpa [isUnd] using this

theorem noAdjU_suffix {l₁ l₂ : List Nat} (hs : l₁ <:+ l₂) (h : noAdjU l₂) :
    noAdjU l₁ := by
  obtain ⟨r, rfl⟩ := hs
  exact (List.chain'_append.mp h).2.1

theorem noAdjU_reverse {l : List Nat} (h : noAdjU l) : noAdjU l.reverse := by
  unfold noAdjU
  rw [List.chain'_reverse]
  exact h.imp (fun a b hab => by unfold flip; tauto)

theorem stripU_noAdjU {l : List Nat} (h : noAdjU l) : noAdjU (stripU l) := by
  unfold stripU
  exact noAdjU_reverse (noAdjU_suffix (List.dropWhile_suffix _)
    (noAdjU_reverse (noAdjU_suffix (List.dropWhile_suffix _) h)))

theorem dropWhileU_id {l : List Nat} (h : l.head? ≠ some 95) :
    l.dropWhile isUnd = l := by
  cases l with
  | nil => rfl
  | cons c cs =>
      rw [List.dropWhile_cons, if_neg]
      simp only [List.head?_cons, ne_eq, Option.some.injEq] at h
      simp [isUnd, h]

theorem stripU_id {l : List Nat} (h1 : l.head? ≠ some 95)
    (h2 : l.getLast? ≠ some 95) : stripU l = l := by
  unfold stripU
  rw [dropWhileU_id h1, dropWhileU_id (by rwa [List.head?_reverse]),
    List.reverse_reverse]

/-! ## Facts about the underscore-collapsing pass -/

theorem collapseU_head : ∀ l : List Nat, (collapseU l).head? = l.head? := by
  intro l
  induction l using collapseU.induct with
  | case1 => rfl
  | case2 c hc =>
      rw [collapseU_single_u hc]
      simp only [isUnd, beq_iff_eq] at hc
      rw [hc]
  | case3 c hc d tail hd ih =>
      rw [collapseU_u_u hc hd, ih]
      simp only [isUnd, beq_iff_eq] at hc hd
      rw [hc, hd]
      rfl
  | case4 c hc d tail hd ih =>
      rw [collapseU_u_nu hc (by simpa using hd)]
      simp only [isUnd, beq_iff_eq] at hc
      rw [hc]
      rfl
  | case5 c tail hc ih => rw [collapseU_nu (by simpa using hc)]; rfl

theorem collapseU_noAdjU : ∀ l : List Nat, noAdjU (collapseU l) := by
  intro l
  induction l using collapseU.induct with
  | case1 => exact List.chain'_nil
  | case2 c hc => rw [collapseU_single_u hc]; simp [noAdjU]
  | case3 c hc d tail hd ih => rwa [collapseU_u_u hc hd]
  | case4 c hc d tail hd ih =>
      rw [collapseU_u_nu hc (by simpa using hd)]
      refine List.chain'_cons'.mpr ⟨?_, ih⟩
      intro y hy
      rw [collapseU_head (d :: tail)] at hy
      simp only [List.head?_cons, Option.mem_def, Option.some.injEq] at hy
      subst hy
      simp only [isUnd, beq_iff_eq] at hd
      tauto
  | case5 c tail hc ih =>
      rw [collapseU_nu (by simpa using hc)]
      refine List.chain'_cons'.mpr ⟨?_, ih⟩
      intro y _
      simp only [isUnd, beq_iff_eq] at hc
      tauto

/-! ## Shape of a fully normalized name, and idempotence -/

theorem toSnakeN_noUp (l : List Nat) : noUpAll (toSnakeN l) := lowerN_noUp _

theorem toSnakeN_noSp (l : List Nat) : noSpAll (toSnakeN l) := by
  unfold toSnakeN sub2
  exact lowerN_noSp (stripU_noSp (collapseU_noSp (sub3_noSp (sub2_noSp (sub1_noSp _)))))

theorem toSnakeN_noAdjU (l : List Nat) : noAdjU (toSnakeN l) := by
  unfold toSnakeN
  exact lowerN_noAdjU (stripU_noAdjU (collapseU_noAdjU _))

theorem toSnakeN_head {l : List Nat} {n : Nat} (h : (toSnakeN l).head? = some n) :
    n ≠ 95 := by
  unfold toSnakeN lowerN at h
  rw [List.head?_map] at h
  cases hx : (stripU (collapseU (sub3 (sub2 (sub1 l))))).head? with
  | none => rw [hx] at h; exact absurd h (by simp)
  | some m =>
      rw [hx] at h
      simp only [Option.map_some', Option.some.injEq] at h
      subst h
      intro hc
      exact stripU_head hx (loC_eq95.mp hc)

theorem toSnakeN_getLast {l : List Nat} {n : Nat}
    (h : (toSnakeN l).getLast? = some n) : n ≠ 95 := by
  unfold toSnakeN lowerN at h
  rw [List.getLast?_map] at h
  cases hx : (stripU (collapseU (sub3 (sub2 (sub1 l))))).getLast? with
  | none => rw [hx] at h; exact absurd h (by simp)
  | some m =>
      rw [hx] at h
      simp only [Option.map_some', Option.some.injEq] at h
      subst h
      intro hc
      exact stripU_getLast hx (loC_eq95.mp hc)

/-- Normalizing an already-normalized name returns it unchanged. -/
theorem toSnakeN_fix (l : List Nat) : toSnakeN (toSnakeN l) = toSnakeN l := by
  have hSp := toSnakeN_noSp l
  have hUp := toSnakeN_noUp l
  have hAdj := toSnakeN_noAdjU l
  have hHead : (toSnakeN l).head? ≠ some 95 := fun hc => toSnakeN_head hc rfl
  have hLast : (toSnakeN l).getLast? ≠ some 95 := fun hc => toSnakeN_getLast hc rfl
  generalize toSnakeN l = t at hSp hUp hAdj hHead hLast ⊢
  unfold toSnakeN sub2
  rw [sub1_id _ hSp, sub2A_id _ false hUp, sub3_id _ hUp, collapseU_id _ hAdj,
    stripU_id hHead hLast, lowerN_id hUp]

/-! ## Generic facts about the table combinators -/

theorem mem_colsUnion_aux (c : List Nat) :
    ∀ (ts : List Table) (acc : List (List Nat)),
      (c ∈ ts.foldl
        (fun acc t => acc ++ t.cols.filter (fun x => decide (x ∉ acc))) acc) ↔
      c ∈ acc ∨ ∃ t ∈ ts, c ∈ t.cols := by
  intro ts
  induction ts with
  | nil => intro acc; simp
  | cons t ts ih =>
      intro acc
      rw [List.foldl_cons, ih]
      simp only [List.mem_append, List.mem_filter, decide_eq_true_eq,
        List.mem_cons]
      constructor
      · rintro (⟨h | ⟨h1, _⟩⟩ | ⟨u, hu, hc⟩)
        · exact Or.inl h
        · exact Or.inr ⟨t, Or.inl rfl, h1⟩
        · exact Or.inr ⟨u, Or.inr hu, hc⟩
      · rintro (h | ⟨u, hu | hu, hc⟩)
        · exact Or.inl (Or.inl h)
        · by_cases hacc : c ∈ acc
          · exact Or.inl (Or.inl hacc)
          · subst hu; exact Or.inl (Or.inr ⟨hc, hacc⟩)
        · exact Or.inr ⟨u, hu, hc⟩

theorem mem_colsUnion {c : List Nat} {ts : List Table} :
    c ∈ colsUnion ts ↔ ∃ t ∈ ts, c ∈ t.cols := by
  unfold colsUnion
  rw [mem_colsUnion_aux]
  simp

theorem concatAll_cols (ts : List Table) : (concatAll ts).cols = colsUnion ts := rfl

/-- `cellAt` over a reindexed row recovers the original lookup. -/
theorem cellAt_map_self (f : List Nat → Cell) :
    ∀ (new : List (List Nat)) (c : List Nat), c ∈ new →
      cellAt new (new.map f) c = f c := by
  intro new
  induction new with
  | nil => intro c hc; exact absurd hc (by simp)
  | cons c1 cs ih =>
      intro c hc
      rw [List.map_cons]
      unfold cellAt
      by_cases h1 : c1 = c
      · rw [if_pos h1, h1]
      · rw [if_neg h1]
        refine ih c ?_
        rcases List.mem_cons.mp hc with h | h
        · exact absurd h.symm h1
        · exact h

/-- `cellAt` of an absent column is null. -/
theorem cellAt_not_mem :
    ∀ (cols : List (List Nat)) (r : List Cell) (c : List Nat), c ∉ cols →
      cellAt cols r c = Cell.null := by
  intro cols
  induction cols with
  | nil => intro r c _; rfl
  | cons c1 cs ih =>
      intro r c hc
      cases r with
      | nil => rfl
      | cons v vs =>
          unfold cellAt
          rw [if_neg (fun h => hc (by simp [h]))]
          exact ih vs c (fun h => hc (List.mem_cons_of_mem _ h))

/-! ## Column-set and row-count preservation in the silver stage -/

theorem mapCol_cols (t : Table) (c : List Nat) (f : Cell → Cell) :
    (mapCol t c f).cols = t.cols := by
  unfold mapCol; split <;> rfl

theorem mapCol_rows_length (t : Table) (c : List Nat) (f : Cell → Cell) :
    (mapCol t c f).rows.length = t.rows.length := by
  unfold mapCol; split <;> simp

theorem parseTimestamps_cols (parse : List Nat → Option ℤ) (t : Table) :
    (parseTimestamps parse t).cols = t.cols := by
  unfold parseTimestamps
  generalize tsColNames = cs
  induction cs generalizing t with
  | nil => rfl
  | cons c cs ih => rw [List.foldl_cons, ih, mapCol_cols]

theorem parseTimestamps_rows_length (parse : List Nat → Option ℤ) (t : Table) :
    (parseTimestamps parse t).rows.length = t.rows.length := by
  unfold parseTimestamps
  generalize tsColNames = cs
  induction cs generalizing t with
  | nil => rfl
  | cons c cs ih => rw [List.foldl_cons, ih, mapCol_rows_length]

theorem setColFn_rows_length (t : Table) (c : List Nat) (f : List Cell → Cell) :
    (setColFn t c f).rows.length = t.rows.length := by
  unfold setColFn; split <;> simp

theorem addResponse_cols (t : Table) :
    (addResponse t).cols
      = if nResponseTimeHours ∈ t.cols then t.cols
        else t.cols ++ [nResponseTimeHours] := by
  unfold addResponse setColFn
  split <;> split <;> simp_all

theorem addResponse_rows_length (t : Table) :
    (addResponse t).rows.length = t.rows.length := by
  unfold addResponse
  split <;> exact setColFn_rows_length ..

theorem filterTickets_id {t : Table} (h : nTicketId ∉ t.cols) :
    filterTickets t = t := by
  unfold filterTickets; rw [if_neg h]

/-! ## Claim theorems (with their witnesses) -/

/-- C6: field-name normalization is idempotent — normalizing an
already-normalized header returns it unchanged — and the two
differently-styled headers "Customer ID" and "customerId" both normalize
to "customer_id". -/
theorem c6_to_snake_idempotent :
    (∀ l : List Nat, toSnakeN (toSnakeN l) = toSnakeN l) ∧
    toSnakeN (strToCodes "Customer ID") = strToCodes "customer_id" ∧
    toSnakeN (strToCodes "customerId") = strToCodes "customer_id" :=
  ⟨toSnakeN_fix, by decide, by decide⟩

/-- C4: the sentiment label is "positive" exactly when the score is at
least 0.5, "negative" exactly when it is at most -0.5 (both boundaries on
the labeled side), "neutral" exactly on the open interval in between, and
"neutral" when the score is missing or unparseable (NaN). -/
theorem c4_sentiment_label_thresholds (q : ℚ) :
    sentimentLabel none = sNeutral ∧
    (sentimentLabel (some q) = sPositive ↔ 1/2 ≤ q) ∧
    (sentimentLabel (some q) = sNegative ↔ q ≤ -(1/2)) ∧
    (sentimentLabel (some q) = sNeutral ↔ -(1/2) < q ∧ q < 1/2) := by
  refine ⟨rfl, ?_, ?_, ?_⟩
  · unfold sentimentLabel
    dsimp only
    split_ifs with h1 h2
    · exact iff_of_true rfl h1
    · exact iff_of_false (by decide) h1
    · exact iff_of_false (by decide) h1
  · unfold sentimentLabel
    dsimp only
    split_ifs with h1 h2
    · refine iff_of_false (by decide) ?_
      intro hc; linarith
    · exact iff_of_true rfl h2
    · exact iff_of_false (by decide) h2
  · unfold sentimentLabel
    dsimp only
    split_ifs with h1 h2
    · refine iff_of_false (by decide) ?_
      rintro ⟨_, hc⟩; linarith
    · refine iff_of_false (by decide) ?_
      rintro ⟨hc, _⟩; linarith
    · push_neg at h1 h2
      exact iff_of_true rfl ⟨by linarith, h1⟩

/-- C9: the union used by the bronze flow is column-commutative — for any
two source tables, unioning A then B yields the same column set as
unioning B then A. -/
theorem c9_union_column_commutative (a b : Table) (c : List Nat) :
    c ∈ (concatAll [a, b]).cols ↔ c ∈ (concatAll [b, a]).cols := by
  rw [concatAll_cols, concatAll_cols, mem_colsUnion, mem_colsUnion]
  constructor
  · rintro ⟨t, ht, hc⟩
    simp only [List.mem_cons, List.not_mem_nil, or_false] at ht
    rcases ht with rfl | rfl
    · exact ⟨t, by simp, hc⟩
    · exact ⟨t, by simp, hc⟩
  · rintro ⟨t, ht, hc⟩
    simp only [List.mem_cons, List.not_mem_nil, or_false] at ht
    rcases ht with rfl | rfl
    · exact ⟨t, by simp, hc⟩
    · exact ⟨t, by simp, hc⟩

/-- C8: when the bronze table has no `ticket_id` column, the silver
filtering step is the identity — no row is dropped or modified — and the
silver row count equals the bronze row count. -/
theorem c8_filter_noop_without_ticket_id (parse : List Nat → Option ℤ)
    (b : Table) (h : nTicketId ∉ b.cols) :
    filterTickets (addResponse (parseTimestamps parse b))
        = addResponse (parseTimestamps parse b) ∧
    (silverTransform parse b).rows.length = b.rows.length := by
  have hcols : nTicketId ∉ (addResponse (parseTimestamps parse b)).cols := by
    rw [addResponse_cols, parseTimestamps_cols]
    split
    · exact h
    · intro hc
      rcases List.mem_append.mp hc with hc | hc
      · exact h hc
      · simp only [List.mem_singleton] at hc
        exact absurd hc (by decide)
  refine ⟨filterTickets_id hcols, ?_⟩
  unfold silverTransform
  rw [filterTickets_id hcols, addResponse_rows_length, parseTimestamps_rows_length]

/-- Witness for C8 at a concrete bronze table with two rows and no
`ticket_id` column. -/
theorem c8_witness :
    nTicketId ∉ wNoTicket.cols ∧
    (filterTickets (addResponse (parseTimestamps parseEpoch wNoTicket))
        = addResponse (parseTimestamps parseEpoch wNoTicket) ∧
     (silverTransform parseEpoch wNoTicket).rows.length = wNoTicket.rows.length) :=
  ⟨by decide, c8_filter_noop_without_ticket_id parseEpoch wNoTicket (by decide)⟩

/-- C7: the summary table is exactly the concatenation, in fixed order, of
the four aggregate tables under the metric names `tickets_per_agent`,
`tickets_by_status`, `tickets_by_sentiment`,
`avg_response_time_per_agent` (so its row count is the sum of the four
row counts, every aggregate row appearing exactly once in table order). -/
theorem c7_summary_concatenation (parseNum : List Nat → Option ℚ) (df : Table) :
    (goldTransform parseNum df).summary
      = (goldTransform parseNum df).tpa.map (fun p => (mTpa, p.1, SVal.iv (p.2 : ℤ)))
        ++ (goldTransform parseNum df).tbs.map (fun p => (mTbs, p.1, SVal.iv (p.2 : ℤ)))
        ++ (goldTransform parseNum df).tbsent.map
            (fun p => (mTbsent, Cell.str p.1, SVal.iv (p.2 : ℤ)))
        ++ (goldTransform parseNum df).avgResp.map
            (fun p => (mAvg, p.1, SVal.fv ((pyOrZero p.2).map round4))) ∧
    (goldTransform parseNum df).summary.length
      = (goldTransform parseNum df).tpa.length
        + (goldTransform parseNum df).tbs.length
        + (goldTransform parseNum df).tbsent.length
        + (goldTransform parseNum df).avgResp.length := by
  have h : (goldTransform parseNum df).summary
      = (goldTransform parseNum df).tpa.map (fun p => (mTpa, p.1, SVal.iv (p.2 : ℤ)))
        ++ (goldTransform parseNum df).tbs.map (fun p => (mTbs, p.1, SVal.iv (p.2 : ℤ)))
        ++ (goldTransform parseNum df).tbsent.map
            (fun p => (mTbsent, Cell.str p.1, SVal.iv (p.2 : ℤ)))
        ++ (goldTransform parseNum df).avgResp.map
            (fun p => (mAvg, p.1, SVal.fv ((pyOrZero p.2).map round4))) := rfl
  refine ⟨h, ?_⟩
  rw [h]
  simp only [List.length_append, List.length_map]

theorem scoreList_length (parseNum : List Nat → Option ℚ) (t : Table) :
    (scoreList parseNum t).length = t.rows.length := by
  unfold scoreList
  split
  · simp [colList]
  · split <;> simp [colList]

theorem count_cons_split (a v : List Nat) (l : List (List Nat)) :
    (a :: l).count v = l.count v + if a = v then 1 else 0 := by
  rw [List.count_cons]
  congr 1
  by_cases hav : a = v <;> simp [hav]

theorem sum_ind_zero {a : List Nat} :
    ∀ d : List (List Nat), a ∉ d →
      (d.map (fun v => if a = v then 1 else 0)).sum = 0 := by
  intro d
  induction d with
  | nil => intro _; rfl
  | cons b d ih =>
      intro h
      rw [List.map_cons, List.sum_cons, ih (fun hm => h (List.mem_cons_of_mem _ hm)),
        if_neg (fun hb => h (by simp [hb]))]

theorem sum_ind_one {a : List Nat} :
    ∀ d : List (List Nat), d.Nodup → a ∈ d →
      (d.map (fun v => if a = v then 1 else 0)).sum = 1 := by
  intro d
  induction d with
  | nil => intro _ h; exact absurd h (by simp)
  | cons b d ih =>
      intro hnd hm
      rw [List.map_cons, List.sum_cons]
      by_cases hab : a = b
      · rw [if_pos hab, sum_ind_zero d (hab ▸ (List.nodup_cons.mp hnd).1)]
      · rw [if_neg hab, ih (List.nodup_cons.mp hnd).2]
        rcases List.mem_cons.mp hm with h | h
        · exact absurd h hab
        · exact h

theorem sum_map_count_dedup (l : List (List Nat)) :
    (l.dedup.map (fun v => l.count v)).sum = l.length := by
  induction l with
  | nil => rfl
  | cons a l ih =>
      have hsplit : ((a :: l).dedup.map (fun v => (a :: l).count v)).sum
          = ((a :: l).dedup.map (fun v => l.count v)).sum
            + ((a :: l).dedup.map (fun v => if a = v then 1 else 0)).sum := by
        rw [← List.sum_map_add]
        congr 1
        apply List.map_congr_left
        intro v _
        exact count_cons_split a v l
      by_cases ha : a ∈ l
      · rw [hsplit, List.dedup_cons_of_mem ha, ih,
          sum_ind_one l.dedup (List.nodup_dedup l) (List.mem_dedup.mpr ha)]
        simp
      · rw [hsplit, List.dedup_cons_of_not_mem ha]
        rw [List.map_cons, List.sum_cons,
          List.count_eq_zero_of_not_mem ha, List.map_cons, List.sum_cons,
          if_pos rfl, sum_ind_zero l.dedup (fun h => ha (List.mem_dedup.mp h)), ih]
        simp

/-- C10: the sentiment labeling is total — every row gets exactly one of
the three labels — so the by-sentiment table has at most three rows and
its counts sum to the silver row count. -/
theorem c10_sentiment_labeling_total (parseNum : List Nat → Option ℚ) (df : Table) :
    (∀ p ∈ (goldTransform parseNum df).tbsent,
        p.1 = sPositive ∨ p.1 = sNeutral ∨ p.1 = sNegative) ∧
    (goldTransform parseNum df).tbsent.length ≤ 3 ∧
    ((goldTransform parseNum df).tbsent.map Prod.snd).sum = df.rows.length := by
  have htb : (goldTransform parseNum df).tbsent
      = groupCountL ((scoreList parseNum df).map sentimentLabel) := rfl
  set labels := (scoreList parseNum df).map sentimentLabel with hl
  have hmem : ∀ x ∈ labels, x = sPositive ∨ x = sNeutral ∨ x = sNegative := by
    intro x hx
    rw [hl] at hx
    obtain ⟨v, _, rfl⟩ := List.mem_map.mp hx
    unfold sentimentLabel
    rcases v with _ | q
    · exact Or.inr (Or.inl rfl)
    · dsimp only
      split_ifs
      · exact Or.inl rfl
      · exact Or.inr (Or.inr rfl)
      · exact Or.inr (Or.inl rfl)
  refine ⟨?_, ?_, ?_⟩
  · intro p hp
    rw [htb] at hp
    unfold groupCountL at hp
    obtain ⟨v, hv, rfl⟩ := List.mem_map.mp hp
    exact hmem v (List.mem_dedup.mp hv)
  · rw [htb]
    unfold groupCountL
    rw [List.length_map]
    calc labels.dedup.length = labels.toFinset.card := (List.card_toFinset labels).symm
      _ ≤ ({sPositive, sNeutral, sNegative} : Finset (List Nat)).card := by
          apply Finset.card_le_card
          intro x hx
          rw [List.mem_toFinset] at hx
          have h3 := hmem x hx
          simp only [Finset.mem_insert, Finset.mem_singleton]
          tauto
      _ ≤ 3 := by
          refine le_trans (Finset.card_insert_le _ _) (Nat.succ_le_succ ?_)
          refine le_trans (Finset.card_insert_le _ _) (Nat.succ_le_succ ?_)
          simp
  · rw [htb]
    unfold groupCountL
    rw [List.map_map]
    have h4 : (Prod.snd ∘ fun v => (v, labels.count v))
        = fun v => labels.count v := rfl
    rw [h4, sum_map_count_dedup, hl, List.length_map]
    exact scoreList_length parseNum df

/-- C2 (failing input): for a silver table whose only agent group has a
single null response time, the per-agent mean is NaN and the summary
records NaN (`none`), not 0.0 — Python's `nan or 0.0` is `nan` because
NaN is truthy — contradicting the claim that an undefined mean is
recorded as exactly 0.0.  The count values are `int`s as claimed. -/
theorem c2_undefined_mean_not_zero_in_summary :
    (goldTransform parseNumQ wNanMean).avgResp
      = [(Cell.str (strToCodes "a1"), none)] ∧
    (goldTransform parseNumQ wNanMean).summary
      = [(mTpa, Cell.str (strToCodes "a1"), SVal.iv 1),
         (mTbsent, Cell.str sNeutral, SVal.iv 1),
         (mAvg, Cell.str (strToCodes "a1"), SVal.fv none)] ∧
    SVal.fv none ≠ SVal.fv (some 0) :=
  ⟨by decide, by decide, by decide⟩

/-- C3 (failing input): with no input files at all, bronze produces (and
writes) an empty, column-less table, exactly as claimed; but then the
silver stage's existence check passes — bronze.csv exists — and its
`pd.read_csv` raises EmptyDataError, an unhandled exception, contradicting
the no-crash claim.  Gold, whose input file was never written, does
return without output. -/
theorem c3_empty_input_silver_raises :
    bronzeFlow wRawEmpty none = emptyTable ∧
    silverFlow parseEpoch (some (bronzeFlow wRawEmpty none))
      = StageOut.raised ReadErr.emptyData ∧
    goldFlow parseNumQ none = none :=
  ⟨by decide, by decide, rfl⟩

/-! ## Cell-level lemmas for the silver response-time column -/

theorem Wf_mapCol {t : Table} (c : List Nat) (f : Cell → Cell) (h : Wf t) :
    Wf (mapCol t c f) := by
  unfold mapCol
  split
  · intro r hr
    simp only at hr ⊢
    obtain ⟨r0, hr0, rfl⟩ := List.mem_map.mp hr
    rw [List.length_set]
    exact h r0 hr0
  · exact h

theorem Wf_parseTimestamps (parse : List Nat → Option ℤ) {t : Table} (h : Wf t) :
    Wf (parseTimestamps parse t) := by
  unfold parseTimestamps
  generalize tsColNames = cs
  induction cs generalizing t with
  | nil => exact h
  | cons c cs ih => rw [List.foldl_cons]; exact ih (Wf_mapCol c _ h)

theorem cellAt_append_new {c : List Nat} {v : Cell} :
    ∀ (cs : List (List Nat)) (r : List Cell), c ∉ cs → r.length = cs.length →
      cellAt (cs ++ [c]) (r ++ [v]) c = v := by
  intro cs
  induction cs with
  | nil =>
      intro r _ hlen
      rw [List.length_nil, List.length_eq_zero] at hlen
      subst hlen
      simp [cellAt]
  | cons c1 cs ih =>
      intro r hc hlen
      cases r with
      | nil => exact absurd hlen.symm (by simp)
      | cons w ws =>
          rw [List.cons_append, List.cons_append]
          unfold cellAt
          rw [if_neg (fun h => hc (by simp [h]))]
          exact ih ws (fun h => hc (List.mem_cons_of_mem _ h)) (by simpa using hlen)

theorem cellAt_append_old {c : List Nat} {v : Cell} {x : List Nat} :
    ∀ (cs : List (List Nat)) (r : List Cell), x ∈ cs → r.length = cs.length →
      cellAt (cs ++ [c]) (r ++ [v]) x = cellAt cs r x := by
  intro cs
  induction cs with
  | nil => intro r hx _; exact absurd hx (by simp)
  | cons c1 cs ih =>
      intro r hx hlen
      cases r with
      | nil => exact absurd hlen.symm (by simp)
      | cons w ws =>
          rw [List.cons_append, List.cons_append]
          unfold cellAt
          by_cases h1 : c1 = x
          · rw [if_pos h1, if_pos h1]
          · rw [if_neg h1, if_neg h1]
            refine ih ws ?_ (by simpa using hlen)
            rcases List.mem_cons.mp hx with h | h
            · exact absurd h.symm h1
            · exact h

theorem cellAt_set_self {c : List Nat} {v : Cell} :
    ∀ (cs : List (List Nat)) (r : List Cell), c ∈ cs → r.length = cs.length →
      cellAt cs (r.set (idxOfN c cs) v) c = v := by
  intro cs
  induction cs with
  | nil => intro r hc _; exact absurd hc (by simp)
  | cons c1 cs ih =>
      intro r hc hlen
      cases r with
      | nil => exact absurd hlen.symm (by simp)
      | cons w ws =>
          by_cases h1 : c1 = c
          · rw [show idxOfN c (c1 :: cs) = 0 from by simp [idxOfN, h1],
              List.set_cons_zero]
            simp only [cellAt]
            rw [if_pos h1]
          · rw [show idxOfN c (c1 :: cs) = idxOfN c cs + 1 from by simp [idxOfN, h1],
              List.set_cons_succ]
            simp only [cellAt]
            rw [if_neg h1]
            refine ih ws ?_ (by simpa using hlen)
            rcases List.mem_cons.mp hc with h | h
            · exact absurd h.symm h1
            · exact h

theorem cellAt_set_other {x c : List Nat} {v : Cell} (hxc : x ≠ c) :
    ∀ (cs : List (List Nat)) (r : List Cell),
      cellAt cs (r.set (idxOfN c cs) v) x = cellAt cs r x := by
  intro cs
  induction cs with
  | nil => intro r; rfl
  | cons c1 cs ih =>
      intro r
      cases r with
      | nil => rfl
      | cons w ws =>
          by_cases h1 : c1 = c
          · rw [show idxOfN c (c1 :: cs) = 0 from by simp [idxOfN, h1],
              List.set_cons_zero]
            simp only [cellAt]
            rw [if_neg (h1 ▸ fun h => hxc h.symm), if_neg (h1 ▸ fun h => hxc h.symm)]
          · rw [show idxOfN c (c1 :: cs) = idxOfN c cs + 1 from by simp [idxOfN, h1],
              List.set_cons_succ]
            simp only [cellAt]
            by_cases h2 : c1 = x
            · rw [if_pos h2, if_pos h2]
            · rw [if_neg h2, if_neg h2]
              exact ih ws

theorem filterTickets_cols (t : Table) : (filterTickets t).cols = t.cols := by
  unfold filterTickets; split <;> rfl

theorem filterTickets_rows_mem {t : Table} {r : List Cell}
    (h : r ∈ (filterTickets t).rows) : r ∈ t.rows := by
  unfold filterTickets at h
  split at h
  · exact (List.mem_filter.mp h).1
  · exact h

theorem setColFn_split_not_mem {t : Table} {c : List Nat} (f : List Cell → Cell)
    (h : c ∉ t.cols) :
    (setColFn t c f).cols = t.cols ++ [c] ∧
    (setColFn t c f).rows = t.rows.map (fun r => r ++ [f r]) := by
  unfold setColFn; rw [if_neg h]; exact ⟨rfl, rfl⟩

theorem setColFn_split_mem {t : Table} {c : List Nat} (f : List Cell → Cell)
    (h : c ∈ t.cols) :
    (setColFn t c f).cols = t.cols ∧
    (setColFn t c f).rows = t.rows.map (fun r => r.set (idxOfN c t.cols) (f r)) := by
  unfold setColFn; rw [if_pos h]; exact ⟨rfl, rfl⟩

theorem addResponse_resp_mem (P : Table) :
    nResponseTimeHours ∈ (addResponse P).cols := by
  rw [addResponse_cols]
  split
  · assumption
  · simp

/-- When both timestamp columns exist, every row of `addResponse P`
carries, in `response_time_hours`, the (resolved − first)/3600 value of
its own timestamp cells — null unless both are parsed timestamps. -/
theorem addResponse_cells {P : Table} (hwf : Wf P)
    (h1 : nResolvedAt ∈ P.cols) (h2 : nFirstResponseAt ∈ P.cols) :
    ∀ r ∈ (addResponse P).rows,
      cellAt (addResponse P).cols r nResponseTimeHours
        = (match cellAt (addResponse P).cols r nResolvedAt,
                 cellAt (addResponse P).cols r nFirstResponseAt with
           | Cell.tme a, Cell.tme c => Cell.num (((a - c : ℤ) : ℚ) / 3600)
           | _, _ => Cell.null) := by
  intro r hr
  have hA : addResponse P = setColFn P nResponseTimeHours (respVal P.cols) := by
    unfold addResponse; rw [if_pos ⟨h1, h2⟩]
  rw [hA] at hr ⊢
  by_cases hm : nResponseTimeHours ∈ P.cols
  · obtain ⟨hcols, hrows⟩ := setColFn_split_mem (respVal P.cols) hm
    rw [hcols]
    rw [hrows] at hr
    obtain ⟨r0, hr0, rfl⟩ := List.mem_map.mp hr
    rw [cellAt_set_self P.cols r0 hm (hwf r0 hr0),
      cellAt_set_other (by decide) P.cols r0,
      cellAt_set_other (by decide) P.cols r0]
    rfl
  · obtain ⟨hcols, hrows⟩ := setColFn_split_not_mem (respVal P.cols) hm
    rw [hcols]
    rw [hrows] at hr
    obtain ⟨r0, hr0, rfl⟩ := List.mem_map.mp hr
    rw [cellAt_append_new P.cols r0 hm (hwf r0 hr0),
      cellAt_append_old P.cols r0 h1 (hwf r0 hr0),
      cellAt_append_old P.cols r0 h2 (hwf r0 hr0)]
    rfl

/-- When either timestamp column is missing, `response_time_hours` is
null on every row. -/
theorem addResponse_cells_null {P : Table} (hwf : Wf P)
    (h : ¬(nResolvedAt ∈ P.cols ∧ nFirstResponseAt ∈ P.cols)) :
    ∀ r ∈ (addResponse P).rows,
      cellAt (addResponse P).cols r nResponseTimeHours = Cell.null := by
  intro r hr
  have hA : addResponse P = setColFn P nResponseTimeHours (fun _ => Cell.null) := by
    unfold addResponse; rw [if_neg h]
  rw [hA] at hr ⊢
  by_cases hm : nResponseTimeHours ∈ P.cols
  · obtain ⟨hcols, hrows⟩ := setColFn_split_mem (fun _ => Cell.null) hm
    rw [hcols]
    rw [hrows] at hr
    obtain ⟨r0, hr0, rfl⟩ := List.mem_map.mp hr
    exact cellAt_set_self P.cols r0 hm (hwf r0 hr0)
  · obtain ⟨hcols, hrows⟩ := setColFn_split_not_mem (fun _ => Cell.null) hm
    rw [hcols]
    rw [hrows] at hr
    obtain ⟨r0, hr0, rfl⟩ := List.mem_map.mp hr
    exact cellAt_append_new P.cols r0 hm (hwf r0 hr0)

/-- C5: the `response_time_hours` column is always present in the silver
output; when the schema has both `resolved_at` and `first_response_at`,
each row's value is (resolved − first) seconds / 3600 — exactly 2.0 for a
7200-second gap, null when either timestamp is null — and when either
field is absent from the schema the column is null on every row. -/
theorem c5_response_time_derivation (parse : List Nat → Option ℤ) (b : Table)
    (hwf : Wf b) :
    nResponseTimeHours ∈ (silverTransform parse b).cols ∧
    (nResolvedAt ∈ b.cols → nFirstResponseAt ∈ b.cols →
      ∀ r ∈ (silverTransform parse b).rows,
        (cellAt (silverTransform parse b).cols r nResponseTimeHours
          = (match cellAt (silverTransform parse b).cols r nResolvedAt,
                   cellAt (silverTransform parse b).cols r nFirstResponseAt with
             | Cell.tme a, Cell.tme c => Cell.num (((a - c : ℤ) : ℚ) / 3600)
             | _, _ => Cell.null)) ∧
        (∀ a c : ℤ,
          cellAt (silverTransform parse b).cols r nResolvedAt = Cell.tme a →
          cellAt (silverTransform parse b).cols r nFirstResponseAt = Cell.tme c →
          a - c = 7200 →
          cellAt (silverTransform parse b).cols r nResponseTimeHours = Cell.num 2) ∧
        ((cellAt (silverTransform parse b).cols r nResolvedAt = Cell.null ∨
          cellAt (silverTransform parse b).cols r nFirstResponseAt = Cell.null) →
          cellAt (silverTransform parse b).cols r nResponseTimeHours = Cell.null)) ∧
    ((nResolvedAt ∉ b.cols ∨ nFirstResponseAt ∉ b.cols) →
      ∀ r ∈ (silverTransform parse b).rows,
        cellAt (silverTransform parse b).cols r nResponseTimeHours = Cell.null) := by
  have hP : Wf (parseTimestamps parse b) := Wf_parseTimestamps parse hwf
  have hPc : (parseTimestamps parse b).cols = b.cols := parseTimestamps_cols parse b
  have hcolsS : (silverTransform parse b).cols
      = (addResponse (parseTimestamps parse b)).cols := by
    unfold silverTransform; rw [filterTickets_cols]
  have hrowsS : ∀ r ∈ (silverTransform parse b).rows,
      r ∈ (addResponse (parseTimestamps parse b)).rows := by
    intro r hr
    unfold silverTransform at hr
    exact filterTickets_rows_mem hr
  refine ⟨?_, ?_, ?_⟩
  · rw [hcolsS]; exact addResponse_resp_mem _
  · intro h1 h2 r hr
    have hmain := addResponse_cells hP (by rw [hPc]; exact h1)
      (by rw [hPc]; exact h2) r (hrowsS r hr)
    rw [hcolsS]
    refine ⟨hmain, ?_, ?_⟩
    · intro a c ha hc hgap
      rw [hmain, ha, hc]
      show Cell.num (((a - c : ℤ) : ℚ) / 3600) = Cell.num 2
      rw [hgap]
      norm_num
    · intro hnull
      rw [hmain]
      rcases hnull with h | h
      · rw [h]
      · rw [h]
        cases cellAt (addResponse (parseTimestamps parse b)).cols r nResolvedAt <;> rfl
  · intro habs r hr
    have hnot : ¬(nResolvedAt ∈ (parseTimestamps parse b).cols ∧
        nFirstResponseAt ∈ (parseTimestamps parse b).cols) := by
      rw [hPc]
      intro hboth
      rcases habs with h | h
      · exact h hboth.1
      · exact h hboth.2
    rw [hcolsS]
    exact addResponse_cells_null hP hnot r (hrowsS r hr)

/-- Witness for C5 at a concrete bronze table carrying both timestamp
columns (one row with a 7200-second gap, one with a null timestamp). -/
theorem c5_witness :
    Wf wResp ∧ nResponseTimeHours ∈ (silverTransform parseEpoch wResp).cols :=
  ⟨by unfold Wf; decide,
   (c5_response_time_derivation parseEpoch wResp (by unfold Wf; decide)).1⟩

/-! ## Lemmas for the bronze provenance claim (C1) -/

theorem getD_map {α β : Type} (f : α → β) (d : β) (d0 : α) :
    ∀ (l : List α) (n : Nat), n < l.length →
      (l.map f).getD n d = f (l.getD n d0) := by
  intro l
  induction l with
  | nil => intro n h; exact absurd h (by simp)
  | cons a l ih =>
      intro n h
      cases n with
      | zero => simp [List.getD_cons_zero]
      | succ n =>
          rw [List.map_cons, List.getD_cons_succ, List.getD_cons_succ]
          exact ih n (by simpa using h)

theorem flatten_getD_block {α : Type} (d : α) :
    ∀ (blocks : List (List α)) (k j : Nat), k < blocks.length →
      j < (blocks.getD k []).length →
      blocks.flatten.getD ((((blocks.take k).map List.length).sum) + j) d
        = (blocks.getD k []).getD j d := by
  intro blocks
  induction blocks with
  | nil => intro k j hk; exact absurd hk (by simp)
  | cons b rest ih =>
      intro k j hk hj
      cases k with
      | zero =>
          rw [List.getD_cons_zero] at hj ⊢
          rw [List.take_zero, List.map_nil, List.sum_nil, Nat.zero_add,
            List.flatten_cons]
          exact List.getD_append _ _ _ _ hj
      | succ k =>
          rw [List.getD_cons_succ] at hj ⊢
          rw [List.take_succ_cons, List.map_cons, List.sum_cons, List.flatten_cons]
          rw [List.getD_append_right]
          · rw [show b.length + ((rest.take k).map List.length).sum + j - b.length
                = ((rest.take k).map List.length).sum + j from by omega]
            exact ih k j (by simpa using hk) hj
          · omega

theorem mem_succs {raw : List (List Nat × Option Table)} {p : List Nat × Table}
    (h : p ∈ succs raw) : ∃ q ∈ raw, q.1 = p.1 ∧ q.2 = some p.2 := by
  unfold succs at h
  obtain ⟨q, hq, hmap⟩ := List.mem_filterMap.mp h
  cases hq2 : q.2 with
  | none => rw [hq2] at hmap; exact absurd hmap (by simp)
  | some t =>
      rw [hq2] at hmap
      simp only [Option.map_some', Option.some.injEq] at hmap
      exact ⟨q, hq, by rw [← hmap], by rw [hq2, ← hmap]⟩

theorem csvDfs_eq (raw : List (List Nat × Option Table)) :
    csvDfs raw = (succs raw).map
      (fun p => setColConst (normalizeCols p.2) nUsrc (Cell.str p.1)) := by
  unfold csvDfs succs
  induction raw with
  | nil => rfl
  | cons q raw ih =>
      rw [List.filterMap_cons, List.filterMap_cons]
      cases hq : q.2 with
      | none => simpa using ih
      | some t => simpa using ih

theorem csvDf_struct {n : List Nat} {t : Table}
    (h : nUsrc ∉ t.cols.map toSnakeN) :
    (setColConst (normalizeCols t) nUsrc (Cell.str n)).cols
      = t.cols.map toSnakeN ++ [nUsrc] ∧
    (setColConst (normalizeCols t) nUsrc (Cell.str n)).rows
      = t.rows.map (fun r => r ++ [Cell.str n]) := by
  unfold setColConst
  exact setColFn_split_not_mem (fun _ => Cell.str n) h

/-- Looking a column up through a renamed layout: when `cSpec` is the only
entry of `new` that `g` renames to `c`, the lookup lands on `cSpec`. -/
theorem cellAt_double_map (g : List Nat → List Nat) (f : List Nat → Cell)
    {cSpec c : List Nat} :
    ∀ new : List (List Nat), cSpec ∈ new → g cSpec = c →
      (∀ x ∈ new, g x = c → x = cSpec) →
      cellAt (new.map g) (new.map f) c = f cSpec := by
  intro new
  induction new with
  | nil => intro h; exact absurd h (by simp)
  | cons x rest ih =>
      intro hmem hg huniq
      rw [List.map_cons, List.map_cons]
      simp only [cellAt]
      by_cases hx : g x = c
      · rw [if_pos hx, huniq x (by simp) hx]
      · rw [if_neg hx]
        refine ih ?_ hg (fun y hy hgy => huniq y (by simp [hy]) hgy)
        rcases List.mem_cons.mp hmem with h | h
        · subst h; exact absurd hg hx
        · exact h

theorem mem_succs_intro {raw : List (List Nat × Option Table)}
    {p : List Nat × Option Table} {t : Table} (hp : p ∈ raw)
    (ht : p.2 = some t) : (p.1, t) ∈ succs raw := by
  unfold succs
  exact List.mem_filterMap.mpr ⟨p, hp, by rw [ht]; rfl⟩

/-- Under the cleanliness hypothesis, `_src` does not appear among a
source's normalized columns. -/
theorem no_usrc_in_source {raw : List (List Nat × Option Table)}
    (hs : CleanSources raw) {p : List Nat × Table} (hp : p ∈ succs raw) :
    nUsrc ∉ p.2.cols.map toSnakeN := by
  intro hc
  obtain ⟨c, hc1, hc2⟩ := List.mem_map.mp hc
  exact ((hs p hp).2 c hc1).2 hc2

/-- Characterization of the columns of the combined CSV frame. -/
theorem colsU1_mem {raw : List (List Nat × Option Table)}
    (hs : CleanSources raw) :
    ∀ x ∈ colsUnion (csvDfs raw),
      (toSnakeN x = nSrc → x = nUsrc) ∧ toSnakeN x ≠ nUsrc := by
  intro x hx
  rw [mem_colsUnion] at hx
  obtain ⟨df, hdf, hxc⟩ := hx
  rw [csvDfs_eq] at hdf
  obtain ⟨p, hp, rfl⟩ := List.mem_map.mp hdf
  have hnu : nUsrc ∉ p.2.cols.map toSnakeN := no_usrc_in_source hs hp
  rw [(csvDf_struct hnu).1] at hxc
  rcases List.mem_append.mp hxc with h | h
  · obtain ⟨c, hc1, rfl⟩ := List.mem_map.mp h
    have hcols := (hs p hp).2
    constructor
    · intro hsnake
      rw [toSnakeN_fix] at hsnake
      exact absurd hsnake (hcols c hc1).1
    · rw [toSnakeN_fix]
      exact (hcols c hc1).2
  · simp only [List.mem_singleton] at h
    subst h
    exact ⟨fun _ => rfl, by decide⟩

theorem nUsrc_mem_colsU1 {raw : List (List Nat × Option Table)}
    (hs : CleanSources raw) (hne : succs raw ≠ []) :
    nUsrc ∈ colsUnion (csvDfs raw) := by
  rw [mem_colsUnion]
  cases hsucc : succs raw with
  | nil => exact absurd hsucc hne
  | cons p rest =>
      have hp : p ∈ succs raw := by rw [hsucc]; simp
      refine ⟨setColConst (normalizeCols p.2) nUsrc (Cell.str p.1), ?_, ?_⟩
      · rw [csvDfs_eq]
        exact List.mem_map.mpr ⟨p, hp, rfl⟩
      · rw [(csvDf_struct (no_usrc_in_source hs hp)).1]
        simp

/-- Length bookkeeping: the blocks before source `k`. -/
theorem take_sum_blocks (raw : List (List Nat × Option Table))
    (F : (List Nat × Table) → Nat)
    (hF : ∀ p ∈ succs raw, F p = p.2.rows.length) (k : Nat) :
    (((succs raw).take k).map F).sum = blockStart raw k := by
  unfold blockStart
  exact congrArg List.sum
    (List.map_congr_left (fun p hp => hF p (List.take_subset _ _ hp)))

theorem total_sum_blocks (raw : List (List Nat × Option Table))
    (F : (List Nat × Table) → Nat)
    (hF : ∀ p ∈ succs raw, F p = p.2.rows.length) :
    ((succs raw).map F).sum = csvRowTotal raw := by
  unfold csvRowTotal
  exact congrArg List.sum (List.map_congr_left hF)

theorem blockStart_lt (raw : List (List Nat × Option Table)) (k j : Nat)
    (hk : k < (succs raw).length)
    (hj : j < ((succs raw).getD k dPair).2.rows.length) :
    blockStart raw k + j < csvRowTotal raw := by
  unfold blockStart csvRowTotal
  set L := (succs raw).map (fun p => p.2.rows.length) with hL
  have hkL : k < L.length := by rw [hL, List.length_map]; exact hk
  have h2 : (L.take (k + 1)).sum = (L.take k).sum + L.getD k 0 := by
    rw [List.sum_take_succ L k hkL, List.getD_eq_getElem L 0 hkL]
  have h3 : L.getD k 0 = ((succs raw).getD k dPair).2.rows.length := by
    rw [hL]
    exact getD_map _ 0 dPair (succs raw) k hk
  have h4 : (L.take (k + 1)).sum ≤ L.sum := by
    conv_rhs => rw [← List.take_append_drop (k + 1) L]
    rw [List.sum_append]
    omega
  have h5 : ((succs raw).take k).map (fun p => p.2.rows.length) = L.take k := by
    rw [List.map_take]
  rw [h5]
  omega

/-- Row count of the combined CSV frame. -/
theorem concat_csv_rows_length {raw : List (List Nat × Option Table)}
    (hs : CleanSources raw) :
    (concatAll (csvDfs raw)).rows.length = csvRowTotal raw := by
  show ((csvDfs raw).map
      (fun t => t.rows.map
        (fun r => reindexRow t.cols r (colsUnion (csvDfs raw))))).flatten.length
    = csvRowTotal raw
  rw [List.length_flatten, List.map_map, csvDfs_eq, List.map_map]
  refine total_sum_blocks raw _ (fun p hp => ?_)
  simp only [Function.comp]
  rw [List.length_map, (csvDf_struct (no_usrc_in_source hs hp)).2, List.length_map]

theorem getD_mem_of_lt {α : Type} {l : List α} {n : Nat} (d : α)
    (h : n < l.length) : l.getD n d ∈ l := by
  rw [List.getD_eq_getElem l d h]
  exact List.getElem_mem h

/-- The bronze row at offset `blockStart k + j` of the combined CSV frame
is row j of source k, extended with its provenance cell and reindexed to
the union columns. -/
theorem csv_block_row {raw : List (List Nat × Option Table)}
    (hs : CleanSources raw) (k j : Nat)
    (hk : k < (succs raw).length)
    (hj : j < ((succs raw).getD k dPair).2.rows.length) :
    (concatAll (csvDfs raw)).rows.getD (blockStart raw k + j) []
      = reindexRow (((succs raw).getD k dPair).2.cols.map toSnakeN ++ [nUsrc])
          (((succs raw).getD k dPair).2.rows.getD j []
            ++ [Cell.str ((succs raw).getD k dPair).1])
          (colsUnion (csvDfs raw)) := by
  have hpmem : (succs raw).getD k dPair ∈ succs raw := getD_mem_of_lt dPair hk
  have hnu := no_usrc_in_source hs hpmem
  show ((csvDfs raw).map
      (fun t => t.rows.map
        (fun r => reindexRow t.cols r (colsUnion (csvDfs raw))))).flatten.getD
      (blockStart raw k + j) []
    = reindexRow (((succs raw).getD k dPair).2.cols.map toSnakeN ++ [nUsrc])
        (((succs raw).getD k dPair).2.rows.getD j []
          ++ [Cell.str ((succs raw).getD k dPair).1])
        (colsUnion (csvDfs raw))
  set CU := colsUnion (csvDfs raw) with hCU
  rw [csvDfs_eq, List.map_map]
  set G := ((fun t : Table => t.rows.map (fun r => reindexRow t.cols r CU)) ∘
      (fun p : List Nat × Table =>
        setColConst (normalizeCols p.2) nUsrc (Cell.str p.1))) with hG
  have hGlen : ∀ q ∈ succs raw, (G q).length = q.2.rows.length := by
    intro q hq
    rw [hG]
    simp only [Function.comp]
    rw [List.length_map, (csvDf_struct (no_usrc_in_source hs hq)).2, List.length_map]
  have hblocks_len : k < ((succs raw).map G).length := by
    rw [List.length_map]; exact hk
  have hstart : blockStart raw k
      = ((((succs raw).map G).take k).map List.length).sum := by
    rw [← List.map_take, List.map_map]
    refine (take_sum_blocks raw (List.length ∘ G) (fun q hq => ?_) k).symm
    simp only [Function.comp]
    exact hGlen q hq
  have hkblock : ((succs raw).map G).getD k [] = G ((succs raw).getD k dPair) :=
    getD_map G [] dPair (succs raw) k hk
  have hjlen : j < (((succs raw).map G).getD k []).length := by
    rw [hkblock, hGlen _ hpmem]; exact hj
  rw [hstart, flatten_getD_block [] ((succs raw).map G) k j hblocks_len hjlen,
    hkblock, hG]
  simp only [Function.comp]
  rw [(csvDf_struct hnu).2, (csvDf_struct hnu).1, List.map_map,
    getD_map _ [] [] ((succs raw).getD k dPair).2.rows j hj]
  rfl

/-- The provenance cell of a csv-block row, before the union reindexing. -/
theorem inner_cell_value {raw : List (List Nat × Option Table)}
    (hs : CleanSources raw) (k j : Nat)
    (hk : k < (succs raw).length)
    (hj : j < ((succs raw).getD k dPair).2.rows.length) :
    cellAt (((succs raw).getD k dPair).2.cols.map toSnakeN ++ [nUsrc])
      (((succs raw).getD k dPair).2.rows.getD j []
        ++ [Cell.str ((succs raw).getD k dPair).1])
      nUsrc = Cell.str ((succs raw).getD k dPair).1 := by
  have hpmem : (succs raw).getD k dPair ∈ succs raw := getD_mem_of_lt dPair hk
  have hnu := no_usrc_in_source hs hpmem
  have hlen : (((succs raw).getD k dPair).2.rows.getD j []).length
      = (((succs raw).getD k dPair).2.cols.map toSnakeN).length := by
    rw [List.length_map]
    exact (hs _ hpmem).1 _ (getD_mem_of_lt [] hj)
  exact cellAt_append_new _ _ hnu hlen

/-- With at least one nonempty successful source the combined CSV frame
is nonempty in pandas' sense. -/
theorem csv_nonempty {raw : List (List Nat × Option Table)}
    (hs : CleanSources raw)
    (hne : ∃ p ∈ succs raw, p.2.rows ≠ []) :
    csvDfs raw ≠ [] ∧ 0 < csvRowTotal raw ∧
    isEmptyT (concatAll (csvDfs raw)) = false := by
  obtain ⟨p, hp, hpr⟩ := hne
  have hsne : succs raw ≠ [] := by
    intro h
    rw [h] at hp
    exact absurd hp (by simp)
  have htotal : 0 < csvRowTotal raw := by
    unfold csvRowTotal
    have hmm : p.2.rows.length ∈ (succs raw).map (fun q => q.2.rows.length) :=
      List.mem_map.mpr ⟨p, hp, rfl⟩
    have hle := List.single_le_sum (l := (succs raw).map fun q => q.2.rows.length)
      (fun x _ => Nat.zero_le x) _ hmm
    have hpos : 0 < p.2.rows.length := List.length_pos.mpr hpr
    omega
  refine ⟨?_, htotal, ?_⟩
  · rw [csvDfs_eq]
    intro h
    exact hsne (List.map_eq_nil_iff.mp h)
  · unfold isEmptyT
    rw [Bool.or_eq_false_iff]
    constructor
    · rw [Bool.eq_false_iff]
      intro hcontra
      rw [List.isEmpty_iff] at hcontra
      have hlen := concat_csv_rows_length hs
      rw [hcontra] at hlen
      simp only [List.length_nil] at hlen
      omega
    · rw [Bool.eq_false_iff]
      intro hcontra
      rw [List.isEmpty_iff] at hcontra
      have hmem := nUsrc_mem_colsU1 hs hsne
      have : (concatAll (csvDfs raw)).cols = colsUnion (csvDfs raw) := rfl
      rw [← this, hcontra] at hmem
      exact absurd hmem (by simp)

/-- Characterization of the columns of the two-frame union. -/
theorem colsU2_mem {raw : List (List Nat × Option Table)} {log : Option Table}
    (hs : CleanSources raw) (hl : CleanLog log) :
    ∀ x ∈ colsUnion [concatAll (csvDfs raw), logTable log],
      (toSnakeN x = nSrc → x = nUsrc) ∧ toSnakeN x ≠ nUsrc := by
  intro x hx
  rw [mem_colsUnion] at hx
  obtain ⟨t, ht, hxc⟩ := hx
  simp only [List.mem_cons, List.not_mem_nil, or_false] at ht
  rcases ht with rfl | rfl
  · exact colsU1_mem hs x hxc
  · obtain ⟨h1, h2, h3⟩ := hl x hxc
    refine ⟨fun hsn => ?_, ?_⟩
    · rw [h1] at hsn
      exact absurd hsn h2
    · rw [h1]
      exact h3

/-- C1 (amended): after the final post-union re-normalization the
provenance column is named "src" — `_to_snake` strips the leading
underscore of `_src` — not "_src".  For every run in which at least one
tabular source is read successfully with at least one row (pandas treats
a zero-row frame as `.empty`), and in which no input column collides with
the provenance names, the bronze table contains a column named exactly
"src" and none named "_src"; on every row that came from tabular source
k the value of "src" is that source's filename without extension, and on
every event-log row it is null. -/
theorem c1_src_provenance (raw : List (List Nat × Option Table))
    (log : Option Table) (hs : CleanSources raw) (hl : CleanLog log)
    (hne : ∃ p ∈ succs raw, p.2.rows ≠ []) :
    nSrc ∈ (bronzeFlow raw log).cols ∧
    nUsrc ∉ (bronzeFlow raw log).cols ∧
    (∀ k j, k < (succs raw).length →
      j < ((succs raw).getD k dPair).2.rows.length →
      cellAt (bronzeFlow raw log).cols
        ((bronzeFlow raw log).rows.getD (blockStart raw k + j) []) nSrc
        = Cell.str ((succs raw).getD k dPair).1) ∧
    (isEmptyT (logTable log) = false →
      ∀ j, j < (logTable log).rows.length →
      cellAt (bronzeFlow raw log).cols
        ((bronzeFlow raw log).rows.getD (csvRowTotal raw + j) []) nSrc
        = Cell.null) := by
  obtain ⟨hdfs_ne, htotal, hcsvne⟩ := csv_nonempty hs hne
  have hsne : succs raw ≠ [] := by
    intro h
    rw [csvDfs_eq, h] at hdfs_ne
    exact hdfs_ne rfl
  have hdfsE : (csvDfs raw).isEmpty = false := by
    rw [Bool.eq_false_iff]
    intro hc
    rw [List.isEmpty_iff] at hc
    exact hdfs_ne hc
  cases hlogE : isEmptyT (logTable log) with
  | true =>
      have hbr : bronzeFlow raw log = normalizeCols (concatAll (csvDfs raw)) := by
        simp [bronzeFlow, hdfsE, hlogE, hcsvne]
      refine ⟨?_, ?_, ?_, ?_⟩
      · rw [hbr]
        exact List.mem_map.mpr ⟨nUsrc, nUsrc_mem_colsU1 hs hsne, by decide⟩
      · rw [hbr]
        intro hmem
        obtain ⟨x, hx, hsnake⟩ := List.mem_map.mp hmem
        exact (colsU1_mem hs x hx).2 hsnake
      · intro k j hk hj
        rw [hbr]
        show cellAt ((colsUnion (csvDfs raw)).map toSnakeN)
            ((concatAll (csvDfs raw)).rows.getD (blockStart raw k + j) []) nSrc
          = Cell.str ((succs raw).getD k dPair).1
        rw [csv_block_row hs k j hk hj]
        unfold reindexRow
        rw [cellAt_double_map toSnakeN _ (colsUnion (csvDfs raw))
          (nUsrc_mem_colsU1 hs hsne) (by decide)
          (fun x hx hgx => (colsU1_mem hs x hx).1 hgx)]
        exact inner_cell_value hs k j hk hj
      · intro hE
        exact absurd hE (by simp)
  | false =>
      have hbr : bronzeFlow raw log
          = normalizeCols (concatAll [concatAll (csvDfs raw), logTable log]) := by
        simp [bronzeFlow, hdfsE, hlogE, hcsvne]
      have hUsrcCU2 : nUsrc ∈ colsUnion [concatAll (csvDfs raw), logTable log] := by
        rw [mem_colsUnion]
        exact ⟨concatAll (csvDfs raw), by simp, nUsrc_mem_colsU1 hs hsne⟩
      have hrows : (concatAll [concatAll (csvDfs raw), logTable log]).rows
          = ((concatAll (csvDfs raw)).rows.map
              (fun r => reindexRow (concatAll (csvDfs raw)).cols r
                (colsUnion [concatAll (csvDfs raw), logTable log])))
            ++ ((logTable log).rows.map
              (fun r => reindexRow (logTable log).cols r
                (colsUnion [concatAll (csvDfs raw), logTable log]))) := by
        show ([concatAll (csvDfs raw), logTable log].map
            (fun t => t.rows.map
              (fun r => reindexRow t.cols r
                (colsUnion [concatAll (csvDfs raw), logTable log])))).flatten = _
        rw [List.map_cons, List.map_cons, List.map_nil, List.flatten_cons,
          List.flatten_cons, List.flatten_nil, List.append_nil]
      refine ⟨?_, ?_, ?_, ?_⟩
      · rw [hbr]
        exact List.mem_map.mpr ⟨nUsrc, hUsrcCU2, by decide⟩
      · rw [hbr]
        intro hmem
        obtain ⟨x, hx, hsnake⟩ := List.mem_map.mp hmem
        exact (colsU2_mem hs hl x hx).2 hsnake
      · intro k j hk hj
        have hlt : blockStart raw k + j < (concatAll (csvDfs raw)).rows.length := by
          rw [concat_csv_rows_length hs]
          exact blockStart_lt raw k j hk hj
        rw [hbr]
        show cellAt ((colsUnion [concatAll (csvDfs raw), logTable log]).map toSnakeN)
            ((concatAll [concatAll (csvDfs raw), logTable log]).rows.getD
              (blockStart raw k + j) []) nSrc
          = Cell.str ((succs raw).getD k dPair).1
        rw [hrows,
          List.getD_append _ _ _ _ (by rw [List.length_map]; exact hlt),
          getD_map _ [] [] _ _ hlt,
          csv_block_row hs k j hk hj]
        unfold reindexRow
        rw [cellAt_double_map toSnakeN _
          (colsUnion [concatAll (csvDfs raw), logTable log]) hUsrcCU2 (by decide)
          (fun x hx hgx => (colsU2_mem hs hl x hx).1 hgx)]
        show cellAt (colsUnion (csvDfs raw))
            ((colsUnion (csvDfs raw)).map _) nUsrc = _
        rw [cellAt_map_self _ (colsUnion (csvDfs raw)) nUsrc
          (nUsrc_mem_colsU1 hs hsne)]
        exact inner_cell_value hs k j hk hj
      · intro _ j hj
        have hfirstlen : ((concatAll (csvDfs raw)).rows.map
            (fun r => reindexRow (concatAll (csvDfs raw)).cols r
              (colsUnion [concatAll (csvDfs raw), logTable log]))).length
            = csvRowTotal raw := by
          rw [List.length_map, concat_csv_rows_length hs]
        rw [hbr]
        show cellAt ((colsUnion [concatAll (csvDfs raw), logTable log]).map toSnakeN)
            ((concatAll [concatAll (csvDfs raw), logTable log]).rows.getD
              (csvRowTotal raw + j) []) nSrc
          = Cell.null
        rw [hrows, List.getD_append_right _ _ _ _ (by rw [hfirstlen]; omega),
          hfirstlen]
        rw [show csvRowTotal raw + j - csvRowTotal raw = j from by omega]
        rw [getD_map _ [] [] _ j hj]
        unfold reindexRow
        rw [cellAt_double_map toSnakeN _
          (colsUnion [concatAll (csvDfs raw), logTable log]) hUsrcCU2 (by decide)
          (fun x hx hgx => (colsU2_mem hs hl x hx).1 hgx)]
        exact cellAt_not_mem _ _ _ (fun hc => (hl nUsrc hc).2.2 rfl)

/-- C1 (counterexample to the claim as stated): in the run where only
customers.csv is present — read successfully, with one row — the bronze
table's columns are exactly ["name", "src"]: there is no column named
"_src", because the final re-normalization strips its leading
underscore. -/
theorem c1_counterexample :
    (∃ p ∈ succs wRawC1, p.2.rows ≠ []) ∧
    (bronzeFlow wRawC1 none).cols = [strToCodes "name", strToCodes "src"] ∧
    nUsrc ∉ (bronzeFlow wRawC1 none).cols :=
  ⟨by decide, by decide, by decide⟩

/-- Witness for C1 (amended) at a run with two tabular sources and an
event log. -/
theorem c1_witness :
    CleanSources wRawW1 ∧ CleanLog (some wLog2) ∧
    nSrc ∈ (bronzeFlow wRawW1 (some wLog2)).cols :=
  ⟨by unfold CleanSources; decide, by unfold CleanLog; decide,
   (c1_src_provenance wRawW1 (some wLog2) (by unfold CleanSources; decide)
     (by unfold CleanLog; decide) (by decide)).1⟩

end Pipeline
